import Mathlib

/-!
Verification development for the translation dispatch queue and the
tracking-record reconciliation of this repository.

Part 1 embeds `src/scripts/utils/queue.ts`: the retry executor
(`executeTaskWithRetry`), the rate-limited FIFO processor
(`processQueue` / `addQueue`) and their process-wide state
(`translationQueue`, `lastRequestTime`, `isProcessing`).

Part 2 embeds the close path of the untranslated-items action
(`src/unnamed/part_000`).

Part 3 embeds the create-untranslated-issues action
(`src/.github/actions/create-untranslated-issues/index.js`): item
validation and grouping, the global `keyRegex` scan that recovers the
keys a record body already documents, the row renderer with its
escaping and collapsible overflow blocks, and the update splice.
-/

/-- A JavaScript error value as the queue code distinguishes them:
`TranslationRefusedError` (checked with `instanceof`) versus any other
error, which only carries a message. -/
inductive JsError
  | refused (msg : String)
  | generic (msg : String)
deriving DecidableEq

/-- `instanceof TranslationRefusedError` check from `executeTaskWithRetry`. -/
def isRefused : JsError → Bool
  | .refused _ => true
  | .generic _ => false

/-- Outcome of one invocation of a task's `queue()` function: the promise
either fulfils or rejects with an error. -/
inductive Outcome
  | success
  | throws (e : JsError)
deriving DecidableEq

/-- `const MAX_RETRIES = 5` from queue.ts. -/
def MAX_RETRIES : Nat := 5

/-- `const RETRY_DELAYS = [0, 1_000, 2_000, 8_000, 10_000, 60_000]`
(milliseconds) from queue.ts. -/
def RETRY_DELAYS : List Nat := [0, 1000, 2000, 8000, 10000, 60000]

/-- Observable trace of one `executeTaskWithRetry` call: the final result,
how many times `task.queue()` was invoked, and the backoff delays awaited
between attempts, in order. -/
structure Trace where
  result : Except JsError Unit
  attempts : Nat
  delays : List Nat

/-- Recursion core of `executeTaskWithRetry` from queue.ts.  The task's
operation is a function from the attempt index (`retryCount`) to its
outcome.  `remaining` is maintained equal to `MAX_RETRIES - retryCount`,
so `remaining = r + 1` is exactly the source's `retryCount < MAX_RETRIES`
test; recursing on it keeps the definition structurally recursive.
On a `TranslationRefusedError` the error is rethrown immediately; on any
other error the call waits `RETRY_DELAYS[retryCount + 1]` and retries,
until the budget is exhausted, when the last error is thrown. -/
def execGo (op : Nat → Outcome) : Nat → Nat → Trace
  | retryCount, remaining =>
    match op retryCount with
    | .success => { result := .ok (), attempts := 1, delays := [] }
    | .throws e =>
      if isRefused e then { result := .error e, attempts := 1, delays := [] }
      else
        match remaining with
        | r + 1 =>
          let rest := execGo op (retryCount + 1) r
          { result := rest.result
            attempts := rest.attempts + 1
            delays := RETRY_DELAYS.getD (retryCount + 1) 0 :: rest.delays }
        | 0 => { result := .error e, attempts := 1, delays := [] }

/-- `executeTaskWithRetry(task, retryCount)` from queue.ts, as the trace of
its attempts.  Entered with the source's default `retryCount = 0`. -/
def executeTaskWithRetry (op : Nat → Outcome) (retryCount : Nat := 0) : Trace :=
  execGo op retryCount (MAX_RETRIES - retryCount)

/-- A queued task: the `key` and the operation it will run (the `queue`
field of `QueueTask` in queue.ts), as a function of the attempt index. -/
structure QueueTask where
  key : String
  op : Nat → Outcome

/-- The final result a queued task's execution produces. -/
def execResult (t : QueueTask) : Except JsError Unit :=
  (executeTaskWithRetry t.op).result

/-- How a queued task's promise was settled: `resolve()`, `reject(error)`
with the task's own error, or `reject(new Error('큐 처리가 이전 에러로 인해
중단됨'))` during the cascade drain. -/
inductive Settlement
  | resolved
  | rejected (e : JsError)
  | aborted
deriving DecidableEq

/-- The process-wide state of queue.ts: the `translationQueue` array, the
`isProcessing` guard, `lastRequestTime`, plus observables — a wall clock,
the settlement log (in settlement order) and the dispatch instants (the
values written to `lastRequestTime`), both in order. -/
structure Sys where
  queue : List QueueTask
  isProcessing : Bool
  lastRequestTime : Nat
  clock : Nat
  log : List (String × Settlement)
  dispatches : List Nat

/-- Initial module state: empty queue, `isProcessing = false`,
`lastRequestTime = 0`. -/
def initSys : Sys :=
  { queue := [], isProcessing := false, lastRequestTime := 0
    clock := 0, log := [], dispatches := [] }

/-- One iteration of the `while` loop of `processQueue` (or its exit).
Does nothing unless a processor is active.  Otherwise: if the queue is
empty the processor stops; else it waits until at least 100 ms have passed
since `lastRequestTime` (the wall clock is advanced accordingly), shifts
the head task, records the new dispatch instant in `lastRequestTime`
before running the task, executes it with retries, and settles it.  On
failure the task is rejected with its own error, every remaining queued
task is rejected with the cascade-abort error in queue order, and the
processor stops. -/
def procStep (s : Sys) : Sys :=
  if s.isProcessing then
    match s.queue with
    | [] => { s with isProcessing := false }
    | t :: rest =>
      let d := if s.clock < s.lastRequestTime + 100 then s.lastRequestTime + 100 else s.clock
      let s1 := { s with clock := d, lastRequestTime := d
                         dispatches := s.dispatches ++ [d], queue := rest }
      match execResult t with
      | .ok _ => { s1 with log := s1.log ++ [(t.key, Settlement.resolved)] }
      | .error e =>
        { s1 with
            log := (s1.log ++ [(t.key, Settlement.rejected e)])
                     ++ rest.map (fun r => (r.key, Settlement.aborted))
            queue := []
            isProcessing := false }
  else s

/-- `addQueue(key, newQueue)` from queue.ts: push the task onto
`translationQueue`, then invoke `processQueue()`, which returns at once if
a processor is already active and otherwise claims the `isProcessing`
flag and starts a run. -/
def addQueue (s : Sys) (t : QueueTask) : Sys :=
  let pushed := { s with queue := s.queue ++ [t] }
  if pushed.isProcessing then pushed else { pushed with isProcessing := true }

/-- An event of an interleaving: an `addQueue` call, passage of wall-clock
time, or the event loop resuming the processor for one iteration. -/
inductive Ev
  | enq (t : QueueTask)
  | tick (d : Nat)
  | step

/-- Apply one event to the module state. -/
def stepEv (s : Sys) : Ev → Sys
  | .enq t => addQueue s t
  | .tick d => { s with clock := s.clock + d }
  | .step => procStep s

/-- Run an interleaving from the initial module state. -/
def runEvents (evs : List Ev) : Sys :=
  evs.foldl stepEv initSys

/-- The keys submitted by the `addQueue` calls of an interleaving, in
submission order. -/
def enqueuedKeys (evs : List Ev) : List String :=
  evs.filterMap fun e =>
    match e with
    | .enq t => some t.key
    | _ => none

/-- Iterate `procStep` a given number of times. -/
def drainAux : Nat → Sys → Sys
  | 0, s => s
  | n + 1, s => drainAux n (procStep s)

/-- Run the active processor to completion (the loop runs at most once per
queued task before it stops). -/
def drain (s : Sys) : Sys :=
  drainAux (s.queue.length + 1) s

/-- Submit a batch of tasks through `addQueue`, in order, starting from
the initial module state. -/
def enqAll (ts : List QueueTask) : Sys :=
  ts.foldl addQueue initSys

/-- The settlements a processing run produces for a queue, in settlement
order: successes resolve and processing continues; the first failure
rejects with its own error and every later task is rejected with the
cascade-abort error. -/
def settleAll : List QueueTask → List (String × Settlement)
  | [] => []
  | t :: rest =>
    match execResult t with
    | .ok _ => (t.key, Settlement.resolved) :: settleAll rest
    | .error e => (t.key, Settlement.rejected e) :: rest.map (fun r => (r.key, Settlement.aborted))

/-! ## Part 2: close path of the untranslated-items tracking action
(`src/unnamed/part_000`), line-level embedding.  A record body is a list
of lines (a line is its list of characters; bodies are joined with
newlines, which never occur inside a line). -/

/-- A record body: its lines, each line a character list. -/
abbrev Body := List (List Char)

/-- The `{game}-untranslated-items.json` report document as the action
observes it: absent on disk, present but failing `JSON.parse`, or parsed
with an optional `items` array. -/
inductive ReportDoc
  | absent
  | malformed
  | present (items : Option Nat)

/-- `hasNoUntranslatedItems` from the action: true when the file does not
exist, or it parses and `!data.items || data.items.length === 0`; a parse
error logs and yields false ("treat parse errors as having items to
process").  The parsed `items` are summarised by their count, which is all
this check reads. -/
def hasNoUntranslatedItems : ReportDoc → Bool
  | .absent => true
  | .malformed => false
  | .present none => true
  | .present (some n) => n == 0

/-- The line prefix `**마지막 업데이트**:` matched by the action's
timestamp-removal regex. -/
def tsMark : List Char := "**마지막 업데이트**:".data

/-- Does a line match `/\*\*마지막 업데이트\*\*:[^\n]*/` (anchored at the
line start, as the body regex does)? -/
def isTsLine (l : List Char) : Bool := tsMark.isPrefixOf l

/-- The horizontal-rule line `---` matched by `/\n---\n[\s\S]*$/`. -/
def hrLine : List Char := "---".data

/-- The fixed footer sentence appended by the action. -/
def footerLine : List Char := "이 이슈는 자동으로 생성 및 관리되었습니다.".data

/-- The success banner line appended when closing. -/
def successBanner : List Char := "✅ **모든 항목이 성공적으로 번역되었습니다.**".data

/-- `**마지막 업데이트**: {timestamp}` line. -/
def lastUpdatedLine (ts : List Char) : List Char :=
  "**마지막 업데이트**: ".data ++ ts

/-- The two body `replace` calls of the action, at line level: first drop
every `**마지막 업데이트**:` line (the `/g` regex), then cut at the first
`---` line (the `/\n---\n[\s\S]*$/` regex removes it and everything
after). -/
def cleanupBody (b : Body) : Body :=
  (b.filter fun l => !isTsLine l).takeWhile fun l => !(l == hrLine)

/-- The closed body the action writes: the cleaned existing body followed
by the success banner, a single fresh `**마지막 업데이트**` line and the
closing rule and footer (the appended text of the action, split at its
newlines). -/
def closeBody (b : Body) (ts : List Char) : Body :=
  cleanupBody b ++
    [[], hrLine, [], successBanner, [], lastUpdatedLine ts, [], hrLine, footerLine]

/-- An external tracking record: its body and whether it is open. -/
structure TrackingRecord where
  body : Body
  isOpen : Bool

/-- Close an open record: rewrite the body and set `state: 'closed'`. -/
def closeRecord (ts : List Char) (r : TrackingRecord) : TrackingRecord :=
  { body := closeBody r.body ts, isOpen := false }

/-- The action's `run` over the open `translation-refused` records of the
game: when the report signals no unresolved items every matching record is
closed with the rewritten body; otherwise no record is touched. -/
def runClose (doc : ReportDoc) (ts : List Char) (records : List TrackingRecord) :
    List TrackingRecord :=
  if hasNoUntranslatedItems doc then records.map (closeRecord ts) else records

/-! ## Lemmas about the retry executor -/

/-- Every execution makes at least one attempt. -/
theorem execGo_attempts_pos (op : Nat → Outcome) (rc rem : Nat) :
    1 ≤ (execGo op rc rem).attempts := by
  unfold execGo
  cases op rc with
  | success => simp
  | throws e =>
    by_cases hr : isRefused e
    · simp [hr]
    · cases rem with
      | zero => simp [hr]
      | succ r => simp [hr]

/-- The number of attempts is bounded by the remaining budget plus one. -/
theorem execGo_attempts_le (op : Nat → Outcome) :
    ∀ rem rc, (execGo op rc rem).attempts ≤ rem + 1 := by
  intro rem
  induction rem with
  | zero =>
    intro rc
    unfold execGo
    cases op rc with
    | success => simp
    | throws e => by_cases hr : isRefused e <;> simp [hr]
  | succ r ih =>
    intro rc
    unfold execGo
    cases op rc with
    | success => simp
    | throws e =>
      by_cases hr : isRefused e
      · simp [hr]
      · simpa [hr] using Nat.succ_le_succ (ih (rc + 1))

/-- Each awaited delay is the schedule entry at one past the index of the
attempt that failed. -/
theorem execGo_delays (op : Nat → Outcome) :
    ∀ rem rc n, n < (execGo op rc rem).delays.length →
      (execGo op rc rem).delays.getD n 0 = RETRY_DELAYS.getD (rc + 1 + n) 0 := by
  intro rem
  induction rem with
  | zero =>
    intro rc n h
    exfalso
    revert h
    unfold execGo
    cases op rc with
    | success => simp
    | throws e => by_cases hr : isRefused e <;> simp [hr]
  | succ r ih =>
    intro rc n h
    revert h
    unfold execGo
    cases op rc with
    | success => simp
    | throws e =>
      by_cases hr : isRefused e
      · simp [hr]
      · simp only [hr]
        cases n with
        | zero => intro _; simp
        | succ m =>
          intro h
          simp only [Bool.false_eq_true, if_false, List.getD_cons_succ]
          have := ih (rc + 1) m (by simpa using h)
          simpa [Nat.add_assoc, Nat.add_comm, Nat.add_left_comm] using this

/-- When no attempt succeeds and no failure is a refusal, the result is
the error of the last attempt (the one at index `rc + rem`). -/
theorem execGo_exhaust (op : Nat → Outcome)
    (hfail : ∀ n, op n ≠ .success)
    (hretry : ∀ n e, op n = .throws e → isRefused e = false) :
    ∀ rem rc e, op (rc + rem) = .throws e →
      (execGo op rc rem).result = .error e := by
  intro rem
  induction rem with
  | zero =>
    intro rc e he
    unfold execGo
    cases h : op rc with
    | success => exact absurd h (hfail rc)
    | throws e' =>
      have : e' = e := by
        have := he
        rw [Nat.add_zero] at this
        rw [h] at this
        injection this
      subst this
      simp [hretry rc e' h]
  | succ r ih =>
    intro rc e he
    unfold execGo
    cases h : op rc with
    | success => exact absurd h (hfail rc)
    | throws e' =>
      have hr := hretry rc e' h
      simp only [hr, Bool.false_eq_true, if_false]
      have : op (rc + 1 + r) = .throws e := by
        have harith : rc + 1 + r = rc + (r + 1) := by omega
        rw [harith]
        exact he
      exact ih (rc + 1) e this

/-- C3.  For every operation whose failures are all retryable, the
executor makes at most 6 attempts (5 retries); the delay awaited before
attempt `n + 1` is the fixed schedule entry `RETRY_DELAYS[n + 1]`; and
when every attempt fails, the error of the last attempt (attempt index
`MAX_RETRIES = 5`) is the final result raised to the caller. -/
theorem claim_C3_retry_budget_and_schedule (op : Nat → Outcome)
    (hretry : ∀ n e, op n = .throws e → isRefused e = false) :
    (executeTaskWithRetry op).attempts ≤ 6
    ∧ (∀ n, n < (executeTaskWithRetry op).delays.length →
        (executeTaskWithRetry op).delays.getD n 0 = RETRY_DELAYS.getD (n + 1) 0)
    ∧ (∀ e, (∀ n, op n ≠ .success) → op MAX_RETRIES = .throws e →
        (executeTaskWithRetry op).result = .error e) := by
  refine ⟨?_, ?_, ?_⟩
  · exact execGo_attempts_le op 5 0
  · intro n h
    have := execGo_delays op 5 0 n h
    simpa [Nat.add_comm] using this
  · intro e hfail he
    exact execGo_exhaust op hfail hretry 5 0 e he

/-- Witness for C3 at a concrete always-retryable operation. -/
theorem claim_C3_witness :
    (executeTaskWithRetry (fun _ => Outcome.throws (JsError.generic "boom"))).attempts ≤ 6
    ∧ (executeTaskWithRetry (fun _ => Outcome.throws (JsError.generic "boom"))).result
        = .error (JsError.generic "boom") := by
  have h := claim_C3_retry_budget_and_schedule
      (fun _ => Outcome.throws (JsError.generic "boom"))
      (by intro n e he; injection he with h'; rw [← h']; rfl)
  exact ⟨h.1, h.2.2 (JsError.generic "boom") (by intro n h'; exact Outcome.noConfusion h') rfl⟩

/-- C5.  A failure classified as a translation refusal is propagated to
the caller immediately and unmodified — one attempt, no delay, the error
itself — while any non-refusal failure does get a retry (at least a
second attempt is made), so refusal is the only failure class that
bypasses retry. -/
theorem claim_C5_refusal_bypasses_retry (op : Nat → Outcome) (e : JsError) :
    (∀ rc, op rc = .throws e → isRefused e = true →
      executeTaskWithRetry op rc = ⟨.error e, 1, []⟩)
    ∧ (op 0 = .throws e → isRefused e = false →
        2 ≤ (executeTaskWithRetry op).attempts) := by
  constructor
  · intro rc h hr
    unfold executeTaskWithRetry execGo
    rw [h]
    simp [hr]
  · intro h hr
    unfold executeTaskWithRetry execGo
    rw [h]
    simp only [hr, Bool.false_eq_true, if_false]
    show 2 ≤ (execGo op 1 4).attempts + 1
    exact Nat.succ_le_succ (execGo_attempts_pos op 1 4)

/-- Witness for C5: a refused operation settles in one unmodified rejected
attempt; a generic failure is retried. -/
theorem claim_C5_witness :
    executeTaskWithRetry (fun _ => Outcome.throws (JsError.refused "policy")) 0
      = ⟨.error (JsError.refused "policy"), 1, []⟩
    ∧ 2 ≤ (executeTaskWithRetry (fun _ => Outcome.throws (JsError.generic "net"))).attempts := by
  constructor
  · exact (claim_C5_refusal_bypasses_retry
      (fun _ => Outcome.throws (JsError.refused "policy")) (JsError.refused "policy")).1 0 rfl rfl
  · exact (claim_C5_refusal_bypasses_retry
      (fun _ => Outcome.throws (JsError.generic "net")) (JsError.generic "net")).2 rfl rfl

/-! ## Lemmas about the queue processor -/

/-- `addQueue` always appends the task and leaves an active processor
behind (it either finds one active or starts one). -/
theorem addQueue_eq (s : Sys) (t : QueueTask) :
    addQueue s t = { s with queue := s.queue ++ [t], isProcessing := true } := by
  obtain ⟨q, p, lrt, c, lg, d⟩ := s
  by_cases h : p <;> simp [addQueue, h]

/-- The processor loop does nothing when no processor is active. -/
theorem procStep_inactive (s : Sys) (h : s.isProcessing = false) :
    procStep s = s := by
  simp [procStep, h]

/-- Iterating the processor from an inactive state changes nothing. -/
theorem drainAux_inactive (n : Nat) (s : Sys) (h : s.isProcessing = false) :
    drainAux n s = s := by
  induction n with
  | zero => rfl
  | succ m ih => simp [drainAux, procStep_inactive s h, ih]

/-- Enough iterations settle every queued task: successes resolve in
order, the first failure rejects with its own error and cascade-aborts
the rest, and the processor ends stopped over an empty queue. -/
theorem drainAux_spec :
    ∀ f s, s.queue.length < f → s.isProcessing = true →
      (drainAux f s).log = s.log ++ settleAll s.queue
      ∧ (drainAux f s).queue = [] ∧ (drainAux f s).isProcessing = false := by
  intro f
  induction f with
  | zero => intro s h _; exact absurd h (Nat.not_lt_zero _)
  | succ m ih =>
    intro s hlen hproc
    obtain ⟨q, p, lrt, c, lg, dp⟩ := s
    dsimp only at hproc hlen
    subst hproc
    cases q with
    | nil =>
      have hstep : drainAux (m + 1) ⟨[], true, lrt, c, lg, dp⟩
          = drainAux m ⟨[], false, lrt, c, lg, dp⟩ := by
        simp [drainAux, procStep]
      rw [hstep, drainAux_inactive m _ rfl]
      simp [settleAll]
    | cons t rest =>
      cases hres : execResult t with
      | ok u =>
        have hstep : drainAux (m + 1) ⟨t :: rest, true, lrt, c, lg, dp⟩
            = drainAux m ⟨rest, true,
                (if c < lrt + 100 then lrt + 100 else c),
                (if c < lrt + 100 then lrt + 100 else c),
                lg ++ [(t.key, Settlement.resolved)],
                dp ++ [if c < lrt + 100 then lrt + 100 else c]⟩ := by
          simp [drainAux, procStep, hres]
        have hlen' : rest.length < m := by simpa using Nat.lt_of_succ_lt_succ hlen
        obtain ⟨h1, h2, h3⟩ := ih ⟨rest, true,
          (if c < lrt + 100 then lrt + 100 else c),
          (if c < lrt + 100 then lrt + 100 else c),
          lg ++ [(t.key, Settlement.resolved)],
          dp ++ [if c < lrt + 100 then lrt + 100 else c]⟩ hlen' rfl
        rw [hstep]
        refine ⟨?_, h2, h3⟩
        rw [h1]
        simp [settleAll, hres]
      | error e =>
        have hstep : drainAux (m + 1) ⟨t :: rest, true, lrt, c, lg, dp⟩
            = drainAux m ⟨[], false,
                (if c < lrt + 100 then lrt + 100 else c),
                (if c < lrt + 100 then lrt + 100 else c),
                (lg ++ [(t.key, Settlement.rejected e)])
                  ++ rest.map (fun r => (r.key, Settlement.aborted)),
                dp ++ [if c < lrt + 100 then lrt + 100 else c]⟩ := by
          simp [drainAux, procStep, hres]
        rw [hstep, drainAux_inactive m _ rfl]
        simp [settleAll, hres]

/-- A batch submission leaves all tasks queued in order, nothing settled,
and (when the batch is nonempty) an active processor. -/
theorem foldl_addQueue_spec :
    ∀ (ts : List QueueTask) (s : Sys),
      (ts.foldl addQueue s).queue = s.queue ++ ts
      ∧ (ts.foldl addQueue s).log = s.log
      ∧ (ts.foldl addQueue s).isProcessing = (s.isProcessing || !ts.isEmpty) := by
  intro ts
  induction ts with
  | nil => intro s; simp
  | cons t rest ih =>
    intro s
    obtain ⟨h1, h2, h3⟩ := ih (addQueue s t)
    refine ⟨?_, ?_, ?_⟩
    · rw [List.foldl_cons, h1, addQueue_eq]
      simp
    · rw [List.foldl_cons, h2, addQueue_eq]
    · rw [List.foldl_cons, h3, addQueue_eq]
      simp

/-- Resolving settlements for a prefix of successes. -/
theorem settleAll_ok_prefix (pre l : List QueueTask)
    (hok : ∀ t ∈ pre, execResult t = .ok ()) :
    settleAll (pre ++ l) = pre.map (fun t => (t.key, Settlement.resolved)) ++ settleAll l := by
  induction pre with
  | nil => simp
  | cons t rest ih =>
    have ht : execResult t = .ok () := hok t (by simp)
    simp only [List.cons_append, settleAll, ht, List.map_cons, List.append_eq]
    rw [ih (fun x hx => hok x (by simp [hx]))]

/-- C1.  Submitting a batch in which `tf` is the first task whose
execution fails (terminal refusal or exhausted retries) and running the
processor to completion settles, in submission order: every earlier task
resolved, `tf` rejected with its own error, and every later task rejected
with the distinct cascade-abort settlement; the processor stops over an
empty queue, and a subsequent `addQueue` starts a fresh run whose queue
holds only the new task and which settles it on its own merits. -/
theorem claim_C1_first_failure_cascade (pre post : List QueueTask)
    (tf : QueueTask) (e : JsError)
    (hok : ∀ t ∈ pre, execResult t = .ok ())
    (herr : execResult tf = .error e) :
    (drain (enqAll (pre ++ tf :: post))).log
      = pre.map (fun t => (t.key, Settlement.resolved))
        ++ (tf.key, Settlement.rejected e)
          :: post.map (fun t => (t.key, Settlement.aborted))
    ∧ (drain (enqAll (pre ++ tf :: post))).queue = []
    ∧ (drain (enqAll (pre ++ tf :: post))).isProcessing = false
    ∧ ∀ t' : QueueTask,
        (addQueue (drain (enqAll (pre ++ tf :: post))) t').queue = [t']
        ∧ (addQueue (drain (enqAll (pre ++ tf :: post))) t').isProcessing = true
        ∧ (drain (addQueue (drain (enqAll (pre ++ tf :: post))) t')).log
            = (drain (enqAll (pre ++ tf :: post))).log ++ settleAll [t'] := by
  obtain ⟨hq, hlg, hp⟩ := foldl_addQueue_spec (pre ++ tf :: post) initSys
  have hq' : (enqAll (pre ++ tf :: post)).queue = pre ++ tf :: post := by
    rw [show enqAll (pre ++ tf :: post) = (pre ++ tf :: post).foldl addQueue initSys from rfl, hq]
    rfl
  have hlg' : (enqAll (pre ++ tf :: post)).log = [] := by
    rw [show enqAll (pre ++ tf :: post) = (pre ++ tf :: post).foldl addQueue initSys from rfl, hlg]
    rfl
  have hp' : (enqAll (pre ++ tf :: post)).isProcessing = true := by
    rw [show enqAll (pre ++ tf :: post) = (pre ++ tf :: post).foldl addQueue initSys from rfl, hp]
    cases pre <;> simp [initSys]
  obtain ⟨h1, h2, h3⟩ := drainAux_spec ((enqAll (pre ++ tf :: post)).queue.length + 1)
    (enqAll (pre ++ tf :: post)) (Nat.lt_succ_self _) hp'
  have hlog : (drain (enqAll (pre ++ tf :: post))).log
      = pre.map (fun t => (t.key, Settlement.resolved))
        ++ (tf.key, Settlement.rejected e)
          :: post.map (fun t => (t.key, Settlement.aborted)) := by
    rw [show drain (enqAll (pre ++ tf :: post))
          = drainAux ((enqAll (pre ++ tf :: post)).queue.length + 1) (enqAll (pre ++ tf :: post))
        from rfl]
    rw [h1, hlg', hq', settleAll_ok_prefix pre (tf :: post) hok]
    simp [settleAll, herr]
  have hdq : (drain (enqAll (pre ++ tf :: post))).queue = [] := h2
  have hdp : (drain (enqAll (pre ++ tf :: post))).isProcessing = false := h3
  refine ⟨hlog, hdq, hdp, ?_⟩
  intro t'
  have haq := addQueue_eq (drain (enqAll (pre ++ tf :: post))) t'
  have hq1 : (addQueue (drain (enqAll (pre ++ tf :: post))) t').queue = [t'] := by
    rw [haq]
    simp [hdq]
  have hp1 : (addQueue (drain (enqAll (pre ++ tf :: post))) t').isProcessing = true := by
    rw [haq]
  obtain ⟨g1, _, _⟩ := drainAux_spec
    ((addQueue (drain (enqAll (pre ++ tf :: post))) t').queue.length + 1)
    (addQueue (drain (enqAll (pre ++ tf :: post))) t') (Nat.lt_succ_self _) hp1
  refine ⟨hq1, hp1, ?_⟩
  rw [show drain (addQueue (drain (enqAll (pre ++ tf :: post))) t')
        = drainAux ((addQueue (drain (enqAll (pre ++ tf :: post))) t').queue.length + 1)
            (addQueue (drain (enqAll (pre ++ tf :: post))) t') from rfl]
  rw [g1, hq1]
  congr 1
  rw [haq]

/-- Witness for C1: three tasks, the middle one refused; settlements in
submission order, then a fresh task after the stop settles on its own. -/
theorem claim_C1_witness :
    (drain (enqAll ([⟨"a", fun _ => Outcome.success⟩]
        ++ ⟨"b", fun _ => Outcome.throws (JsError.refused "x")⟩
          :: [⟨"c", fun _ => Outcome.success⟩]))).log
      = [("a", Settlement.resolved),
         ("b", Settlement.rejected (JsError.refused "x")),
         ("c", Settlement.aborted)] := by
  have h := claim_C1_first_failure_cascade
    [⟨"a", fun _ => Outcome.success⟩] [⟨"c", fun _ => Outcome.success⟩]
    ⟨"b", fun _ => Outcome.throws (JsError.refused "x")⟩ (JsError.refused "x")
    (by intro t ht; simp at ht; subst ht; rfl) rfl
  rw [h.1]
  rfl

/-- Each processor iteration preserves the partition of submitted keys
between the settlement log and the pending queue. -/
theorem procStep_partition (s : Sys) :
    (procStep s).log.map Prod.fst ++ (procStep s).queue.map QueueTask.key
      = s.log.map Prod.fst ++ s.queue.map QueueTask.key := by
  obtain ⟨q, p, lrt, c, lg, dp⟩ := s
  cases p with
  | false => rfl
  | true =>
    cases q with
    | nil => simp [procStep]
    | cons t rest =>
      cases hres : execResult t with
      | ok u => simp [procStep, hres]
      | error e => simp [procStep, hres, List.map_map, Function.comp]

/-- Running any interleaving splits the submitted keys, in submission
order, between the settlement log and the queue. -/
theorem foldl_stepEv_partition :
    ∀ (evs : List Ev) (s : Sys),
      (evs.foldl stepEv s).log.map Prod.fst ++ (evs.foldl stepEv s).queue.map QueueTask.key
        = s.log.map Prod.fst ++ s.queue.map QueueTask.key
          ++ evs.filterMap (fun e => match e with | .enq t => some t.key | _ => none) := by
  intro evs
  induction evs with
  | nil => intro s; simp
  | cons ev rest ih =>
    intro s
    cases ev with
    | enq t =>
      rw [List.foldl_cons]
      rw [show stepEv s (Ev.enq t) = addQueue s t from rfl, ih (addQueue s t), addQueue_eq]
      simp
    | tick d =>
      rw [List.foldl_cons]
      rw [show stepEv s (Ev.tick d) = { s with clock := s.clock + d } from rfl,
        ih { s with clock := s.clock + d }]
      simp
    | step =>
      rw [List.foldl_cons]
      rw [show stepEv s Ev.step = procStep s from rfl, ih (procStep s), procStep_partition]
      simp

/-- C6.  Queue invariants over every interleaving of `addQueue` calls,
clock ticks and processor iterations: the keys submitted so far are
exactly the settled keys (in settlement order) followed by the still
queued keys (in queue order) — so settlement follows strict FIFO
submission order and each submitted task is settled at most once, and
exactly once when it has left the queue; a processor iteration does
nothing when the `isProcessing` guard is not held (at most one loop can
make progress); and an `addQueue` racing with an active processor only
appends the task, never starting a second loop. -/
theorem claim_C6_fifo_single_processor_settle_once :
    (∀ evs : List Ev,
      (runEvents evs).log.map Prod.fst ++ (runEvents evs).queue.map QueueTask.key
        = enqueuedKeys evs)
    ∧ (∀ s : Sys, procStep { s with isProcessing := false } = { s with isProcessing := false })
    ∧ (∀ (s : Sys) (t : QueueTask),
        addQueue { s with isProcessing := true } t
          = { s with isProcessing := true, queue := s.queue ++ [t] }) := by
  refine ⟨?_, ?_, ?_⟩
  · intro evs
    have h := foldl_stepEv_partition evs initSys
    simpa [runEvents, initSys, enqueuedKeys] using h
  · intro s
    simp [procStep]
  · intro s t
    simp [addQueue]

/-- One event preserves the rate-limit invariant: dispatch instants are
spaced by at least 100 ms and `lastRequestTime` holds the latest one. -/
theorem stepEv_gap (s : Sys) (ev : Ev)
    (h1 : List.Chain' (fun a b => a + 100 ≤ b) s.dispatches)
    (h2 : s.lastRequestTime = s.dispatches.getLastD 0) :
    List.Chain' (fun a b => a + 100 ≤ b) (stepEv s ev).dispatches
    ∧ (stepEv s ev).lastRequestTime = (stepEv s ev).dispatches.getLastD 0 := by
  cases ev with
  | enq t =>
    rw [show stepEv s (Ev.enq t) = addQueue s t from rfl, addQueue_eq]
    exact ⟨h1, h2⟩
  | tick d => exact ⟨h1, h2⟩
  | step =>
    rw [show stepEv s Ev.step = procStep s from rfl]
    obtain ⟨q, p, lrt, c, lg, dp⟩ := s
    cases p with
    | false => exact ⟨h1, h2⟩
    | true =>
      cases q with
      | nil => exact ⟨h1, h2⟩
      | cons t restq =>
        dsimp only at h1 h2
        have hd : lrt + 100 ≤ (if c < lrt + 100 then lrt + 100 else c) := by
          split <;> omega
        have hchain : List.Chain' (fun a b => a + 100 ≤ b)
            (dp ++ [if c < lrt + 100 then lrt + 100 else c]) := by
          rw [List.chain'_append]
          refine ⟨h1, List.chain'_singleton _, ?_⟩
          intro x hx y hy
          simp at hy
          have hx' : dp.getLastD 0 = x := by
            rw [List.getLastD_eq_getLast?, hx]
            rfl
          have hlx : lrt = x := by rw [h2, hx']
          omega
        cases hres : execResult t with
        | ok u =>
          constructor
          · simp only [procStep, hres]
            simpa using hchain
          · simp only [procStep, hres]
            simp [List.getLastD_concat]
        | error e =>
          constructor
          · simp only [procStep, hres]
            simpa using hchain
          · simp only [procStep, hres]
            simp [List.getLastD_concat]

/-- The rate-limit invariant holds along every interleaving. -/
theorem foldl_stepEv_gap :
    ∀ (evs : List Ev) (s : Sys),
      List.Chain' (fun a b => a + 100 ≤ b) s.dispatches
      → s.lastRequestTime = s.dispatches.getLastD 0
      → List.Chain' (fun a b => a + 100 ≤ b) (evs.foldl stepEv s).dispatches
        ∧ (evs.foldl stepEv s).lastRequestTime = (evs.foldl stepEv s).dispatches.getLastD 0 := by
  intro evs
  induction evs with
  | nil => intro s h1 h2; exact ⟨h1, h2⟩
  | cons ev rest ih =>
    intro s h1 h2
    rw [List.foldl_cons]
    obtain ⟨g1, g2⟩ := stepEv_gap s ev h1 h2
    exact ih (stepEv s ev) g1 g2

/-- C8.  In every interleaving, consecutive dispatch instants are at
least 100 ms apart, and the recorded `lastRequestTime` is always the
latest dispatch instant (it is written when the slot is granted, before
the task runs). -/
theorem claim_C8_min_dispatch_gap (evs : List Ev) :
    List.Chain' (fun a b => a + 100 ≤ b) (runEvents evs).dispatches
    ∧ (runEvents evs).lastRequestTime = (runEvents evs).dispatches.getLastD 0 := by
  have h := foldl_stepEv_gap evs initSys (by simp [initSys]) (by simp [initSys])
  simpa [runEvents] using h

/-! ## Lemmas about the close path -/

/-- The freshly appended timestamp line is a timestamp line. -/
theorem isTsLine_lastUpdatedLine (ts : List Char) :
    isTsLine (lastUpdatedLine ts) = true := by
  have h : lastUpdatedLine ts = tsMark ++ (' ' :: ts) := rfl
  rw [h, isTsLine]
  exact List.isPrefixOf_iff_prefix.mpr (List.prefix_append _ _)

/-- The cleaned body contains no timestamp line. -/
theorem cleanupBody_no_ts (b : Body) :
    ∀ l ∈ cleanupBody b, isTsLine l = false := by
  intro l hl
  have hmem : l ∈ b.filter fun l => !isTsLine l :=
    List.takeWhile_subset _ hl
  have := (List.mem_filter.mp hmem).2
  simpa using this

/-- C7.  The close path fires exactly when the run signals no unresolved
items — the report document is absent, or parses with a missing or empty
items sequence; a parse failure never fires it and leaves every tracking
record unmodified.  When it fires, every matching open record is closed:
its new body carries the success banner, ends with the closing footer,
and holds exactly one timestamp line (the fresh one; prior ones are
removed, not duplicated), and the record's state becomes closed. -/
theorem claim_C7_close_path (doc : ReportDoc) (ts : List Char)
    (records : List TrackingRecord) (b : Body) (r : TrackingRecord) :
    (hasNoUntranslatedItems doc = true
      ↔ doc = .absent ∨ doc = .present none ∨ doc = .present (some 0))
    ∧ runClose .malformed ts records = records
    ∧ runClose .absent ts records = records.map (closeRecord ts)
    ∧ runClose (.present none) ts records = records.map (closeRecord ts)
    ∧ runClose (.present (some 0)) ts records = records.map (closeRecord ts)
    ∧ (closeBody b ts).countP (fun l => isTsLine l) = 1
    ∧ successBanner ∈ closeBody b ts
    ∧ (closeBody b ts).getLast? = some footerLine
    ∧ (closeRecord ts r).isOpen = false := by
  refine ⟨?_, rfl, rfl, rfl, ?_, ?_, ?_, ?_, rfl⟩
  · cases doc with
    | absent => simp [hasNoUntranslatedItems]
    | malformed => simp [hasNoUntranslatedItems]
    | present items =>
      cases items with
      | none => simp [hasNoUntranslatedItems]
      | some n => simp [hasNoUntranslatedItems]
  · show runClose (.present (some 0)) ts records = records.map (closeRecord ts)
    rfl
  · show (closeBody b ts).countP (fun l => isTsLine l) = 1
    rw [closeBody, List.countP_append]
    have h0 : (cleanupBody b).countP (fun l => isTsLine l) = 0 := by
      rw [List.countP_eq_zero]
      intro l hl
      simp [cleanupBody_no_ts b l hl]
    rw [h0]
    simp [List.countP_cons, isTsLine_lastUpdatedLine, isTsLine, tsMark,
      hrLine, successBanner, footerLine, List.isPrefixOf]
  · show successBanner ∈ closeBody b ts
    rw [closeBody]
    simp
  · show (closeBody b ts).getLast? = some footerLine
    rw [closeBody, List.getLast?_append]
    rfl


/-! ## Part 3: the create-untranslated-issues action
(`src/.github/actions/create-untranslated-issues/index.js`).  Record
bodies here are flat character lists (the issue body string); the key
scan, strips and splice below mirror the action's regexes and string
surgery. -/

/-- A validated unresolved item of the report: `{ mod, file, key,
message }`, all strings (index.js lines 59-75). -/
structure UnresolvedItem where
  mod : List Char
  file : List Char
  key : List Char
  message : List Char
deriving DecidableEq

/-- A raw element of `data.items` as the validation loop sees it: a
falsy / non-object value, or an object whose four fields each either are
a string or fail the `typeof === 'string'` test (summarised as `none`). -/
inductive RawItem
  | invalid
  | obj (mod file key message : Option (List Char))
deriving DecidableEq

/-- The validation test of index.js lines 61-67: an item passes iff it
is an object and `mod`, `file`, `key`, `message` are all strings. -/
def validItem : RawItem → Option UnresolvedItem
  | .obj (some m) (some f) (some k) (some msg) => some ⟨m, f, k, msg⟩
  | _ => none

/-- Append one valid item to its mod's bucket, creating the bucket at
the end on first sight — the insertion-order semantics of
`itemsByMod[item.mod].push(item)` over a plain object. -/
def addToGroup : List (List Char × List UnresolvedItem) → UnresolvedItem →
    List (List Char × List UnresolvedItem)
  | [], it => [(it.mod, [it])]
  | (m, l) :: rest, it =>
    if m = it.mod then (m, l ++ [it]) :: rest else (m, l) :: addToGroup rest it

/-- Group already-validated items by mod. -/
def groupValid (its : List UnresolvedItem) : List (List Char × List UnresolvedItem) :=
  its.foldl addToGroup []

/-- The grouping loop of index.js lines 58-75: items failing validation
are skipped with a warning; the rest are bucketed by `mod` in insertion
order. -/
def itemsByMod (raw : List RawItem) : List (List Char × List UnresolvedItem) :=
  raw.foldl
    (fun acc r =>
      match validItem r with
      | none => acc
      | some it => addToGroup acc it)
    []

/-- JavaScript whitespace (`\s`), restricted to its ASCII members, which
are the only whitespace the action's own text ever contains. -/
def isWsChar (c : Char) : Bool :=
  c == ' ' || c == '\t' || c == '\n' || c == '\r' || c == '\x0b' || c == '\x0c'

/-- Consume characters up to and including the next `|`. -/
def dropCell : List Char → Option (List Char)
  | [] => none
  | c :: rest => if c = '|' then some rest else dropCell rest

/-- Consume the characters before the next backtick, returning them and
the remainder after the backtick. -/
def takeKey : List Char → Option (List Char × List Char)
  | [] => none
  | c :: rest =>
    if c = '`' then some ([], rest)
    else
      match takeKey rest with
      | none => none
      | some (k, r) => some (c :: k, r)

/-- `\s*` followed by the literal `c`: skip whitespace until `c` (the
only candidate the regex can take) or fail at the first blocking
character. -/
def skipWsThen (c : Char) : List Char → Option (List Char)
  | [] => none
  | d :: rest =>
    if d = c then some rest
    else if isWsChar d then skipWsThen c rest else none

/-- Stage 3 of an anchored `keyRegex` attempt: after the captured key,
`\`\s*\|` — the key must be nonempty and the closing backtick followed
by whitespace and a `|`; the text after that `|` is where the match
ends. -/
def matchTail (k r3 : List Char) : Option (List Char × List Char) :=
  if k.isEmpty then none
  else
    match skipWsThen '|' r3 with
    | none => none
    | some r4 => some (k, r4)

/-- Stage 2: after the second `|`, `\s*\`([^`]+)\`` — whitespace, the
opening backtick, the captured key up to the closing backtick. -/
def matchKeyTail (r2 : List Char) : Option (List Char × List Char) :=
  match takeKey r2 with
  | none => none
  | some (k, r3) => matchTail k r3

def matchKey (r1 : List Char) : Option (List Char × List Char) :=
  match skipWsThen '`' r1 with
  | none => none
  | some r2 => matchKeyTail r2

/-- One anchored attempt of `keyRegex`
(`/\|\s*[^|]+\s*\|\s*\`([^\`]+)\`\s*\|/g`, index.js line 87) at the
head of the text.  Since `\s ⊆ [^|]`, the first three atoms are
equivalent to `\|[^|]+\|`: a `|`, at least one non-pipe character, and
the next `|`.  Every quantifier's extent is forced, so the attempt is
this deterministic scan.  On success it returns the captured key and the
text after the final `|` (where `lastIndex` resumes). -/
def matchAt : List Char → Option (List Char × List Char)
  | [] => none
  | [_] => none
  | c :: c1 :: rest1 =>
    if c = '|' then
      if c1 = '|' then none
      else
        match dropCell rest1 with
        | none => none
        | some r1 => matchKey r1
    else none

/-- The `keyRegex.exec` loop: repeatedly find the leftmost match and
resume after its end.  Fuel (the text length bounds the number of steps
since every step consumes at least one character) keeps the definition
structural. -/
def scanKeysAux : Nat → List Char → List (List Char)
  | 0, _ => []
  | _ + 1, [] => []
  | fuel + 1, c :: rest =>
    match matchAt (c :: rest) with
    | some (k, after) => k :: scanKeysAux fuel after
    | none => scanKeysAux fuel rest

/-- The keys a record body already documents, in match order
(`existingKeys`; the code stores them in a `Set`, whose membership test
is membership in this list). -/
def scanKeys (s : List Char) : List (List Char) :=
  scanKeysAux s.length s

/-- Cell escaping (index.js line 147):
`.replace(/\|/g,'\\|').replace(/\n/g,' ').replace(/`/g,'\\`')`.  The
three stages touch disjoint characters and no stage's output contains a
later stage's target, so they compose to this single character map. -/
def escCellChar (c : Char) : List Char :=
  if c = '|' then ['\\', '|']
  else if c = '\n' then [' ']
  else if c = '`' then ['\\', '`']
  else [c]

/-- `escapedMessage` of index.js line 147. -/
def escapedMessage (m : List Char) : List Char := m.flatMap escCellChar

/-- Detail escaping (index.js line 153): pipes and backticks
backslash-escaped, newlines preserved. -/
def escDetChar (c : Char) : List Char :=
  if c = '|' then ['\\', '|']
  else if c = '`' then ['\\', '`']
  else [c]

/-- `detailsMessage` of index.js line 153. -/
def detailsMessage (m : List Char) : List Char := m.flatMap escDetChar

/-- The overflow test of index.js line 151:
`rawMessage.length > 100 || rawMessage.includes('\n')`. -/
def overflows (m : List Char) : Bool := 100 < m.length || m.contains '\n'

/-- `displayMessage`: the escaped message, truncated to its first 100
characters plus an ellipsis when the raw message overflows. -/
def displayMessage (m : List Char) : List Char :=
  if overflows m then (escapedMessage m).take 100 ++ "...".data
  else escapedMessage m

/-- `detailsSection` of index.js line 154: a collapsible block holding
the full detail-escaped message inside a code fence. -/
def detailsText (m : List Char) : List Char :=
  "<details><summary>전체 메시지 보기</summary>\n\n```\n".data ++
    detailsMessage m ++ "\n```\n\n</details>\n".data

/-- One table row (index.js line 156):
``| {file} | `{key}` | {display} |``. -/
def rowText (f k d : List Char) : List Char :=
  "| ".data ++ f ++ " | `".data ++ k ++ "` | ".data ++ d ++ " |\n".data

/-- The lines one item contributes: its row, then its details section
when the message overflows. -/
def itemLines (it : UnresolvedItem) : List Char :=
  rowText it.file it.key (displayMessage it.message) ++
    (if overflows it.message then detailsText it.message else [])

/-- The concatenated rows of a batch, in order. -/
def rowsText : List UnresolvedItem → List Char
  | [] => []
  | it :: rest => itemLines it ++ rowsText rest

/-- The create path's body header (index.js lines 178-182). -/
def headerText (gdn m t : List Char) : List Char :=
  "## 번역 거부 항목\n\n**게임**: ".data ++ gdn ++
    "\n**모드**: ".data ++ m ++
    "\n**발생 시간**: ".data ++ t ++
    "\n\n### 항목 목록\n\n".data

/-- The table header and separator rows (index.js lines 183-184). -/
def thsepText : List Char := "| 파일 | 키 | 원문 |\n|------|-----|------|\n".data

/-- The create path's closing rule and footer (index.js lines 203-204). -/
def footerText : List Char :=
  "\n---\n이 이슈는 자동으로 생성되었습니다. 수동 번역이 필요한 항목입니다.\n".data

/-- The full body the create path emits (index.js lines 178-204). -/
def createBody (gdn m t : List Char) (items : List UnresolvedItem) : List Char :=
  headerText gdn m t ++ thsepText ++ rowsText items ++ footerText

/-- The line marker `**마지막 업데이트**:` of both actions' regexes. -/
def tsMarkF : List Char := "**마지막 업데이트**:".data

/-- The first `replace` of the update path (index.js line 102):
`/\*\*마지막 업데이트\*\*:.*?\n+/s` removes the first marker occurrence
through the rest of its line and the following newline run; with no
newline after a marker that occurrence cannot match and the search
continues; with no matchable occurrence the body is unchanged. -/
def removeTs : List Char → List Char
  | [] => []
  | c :: rest =>
    if tsMarkF.isPrefixOf (c :: rest) &&
        ((c :: rest).drop tsMarkF.length).contains '\n' then
      (((c :: rest).drop tsMarkF.length).dropWhile (fun x => !(x == '\n'))).dropWhile
        (fun x => x == '\n')
    else c :: removeTs rest

/-- The pattern of the second `replace` (index.js line 103). -/
def nlDashNl : List Char := "\n---\n".data

/-- `/\n---\n[\s\S]*$/s`: cut from the first occurrence of the pattern
to the end; with no occurrence the text is unchanged. -/
def cutAtPat (pat : List Char) : List Char → List Char
  | [] => []
  | c :: rest => if pat.isPrefixOf (c :: rest) then [] else c :: cutAtPat pat rest

/-- Split a body at its newlines (`updatedBody.split('\n')`). -/
def splitLines (s : List Char) : List (List Char) :=
  match s with
  | [] => [[]]
  | c :: rest =>
    let r := splitLines rest
    if c = '\n' then [] :: r
    else
      match r with
      | [] => [[c]]
      | l :: ls => (c :: l) :: ls

/-- `lines.join('\n')`. -/
def joinLines : List (List Char) → List Char
  | [] => []
  | [l] => l
  | l :: rest => l ++ '\n' :: joinLines rest

/-- `line.trim()`. -/
def trimL (l : List Char) : List Char :=
  ((l.dropWhile isWsChar).reverse.dropWhile isWsChar).reverse

/-- `lines[i].trim().startsWith('|')` — the table-start test of index.js
line 109. -/
def trimStartsPipe (l : List Char) : Bool :=
  match trimL l with
  | '|' :: _ => true
  | _ => false

/-- `tableStartLine`: the first line whose trimmed form starts with `|`
(index.js lines 107-113); `none` is the `-1` / warn-and-skip case. -/
def firstPipeLine (ls : List (List Char)) : Option Nat :=
  ls.findIdx? trimStartsPipe

/-- The continuation test of the table-end scan (index.js line 125). -/
def contLine (l : List Char) : Bool :=
  let t := trimL l
  (match t with
   | '|' :: _ => true
   | _ => false) ||
    "<details>".data.isPrefixOf t || "</details>".data.isPrefixOf t || t.isEmpty

/-- The table-end loop body: walk lines recording the index of the last
continuation line, stopping at the first other line. -/
def tableEndScan : List (List Char) → Nat → Nat → Nat
  | [], _, te => te
  | l :: rest, i, te => if contLine l then tableEndScan rest (i + 1) i else te

/-- `tableEndLine` (index.js lines 121-130): start at the separator
line, scan from two past the table start. -/
def tableEndLine (ls : List (List Char)) (tsl : Nat) : Nat :=
  tableEndScan (ls.drop (tsl + 2)) (tsl + 2) (tsl + 1)

/-- `insertPosition` (index.js lines 133-141): the length of the joined
lines through `tableEndLine`, plus one for the newline when anything
follows. -/
def insertPos (stripped : List Char) (te : Nat) : Nat :=
  if 0 < te then
    let j := (joinLines ((splitLines stripped).take (te + 1))).length
    if j < stripped.length then j + 1 else j
  else stripped.length

/-- The dynamic suffix the update path re-appends (index.js
lines 164-166). -/
def updateSuffix (t : List Char) : List Char :=
  "\n**마지막 업데이트**: ".data ++ t ++
    "\n\n---\n이 이슈는 자동으로 생성되었습니다. 수동 번역이 필요한 항목입니다.\n".data

/-- The action the per-mod loop takes. -/
inductive RAction
  | create (body : List Char)
  | update (body : List Char)
  | skipped
  | noop
deriving DecidableEq

/-- One iteration of the per-mod loop (index.js lines 77-215): create a
fresh body when no open issue matches the title; otherwise scan the
existing body's keys, keep only genuinely new items, do nothing when
none are new, warn and skip when the stripped body has no table line,
and otherwise splice the new rows in at the computed position and
re-append the dynamic suffix. -/
def reconcileGroup (existing : Option (List Char)) (gdn m t : List Char)
    (items : List UnresolvedItem) : RAction :=
  match existing with
  | none => .create (createBody gdn m t items)
  | some body =>
    let existingKeys := scanKeys body
    let newItems := items.filter fun it => !(existingKeys.contains it.key)
    if newItems.isEmpty then .noop
    else
      let stripped := cutAtPat nlDashNl (removeTs body)
      match firstPipeLine (splitLines stripped) with
      | none => .skipped
      | some tsl =>
        let ins := insertPos stripped (tableEndLine (splitLines stripped) tsl)
        .update (stripped.take ins ++ rowsText newItems ++ stripped.drop ins
          ++ updateSuffix t)

/-- The record body in force after an action. -/
def resultBody (existing : Option (List Char)) (a : RAction) : List Char :=
  match a with
  | .create b => b
  | .update b => b
  | .skipped => existing.getD []
  | .noop => existing.getD []

def gdTail : Char → List Char → Bool
  | _, [] => true
  | p, c :: rest => (!(c == '`') || (p == '\\')) && gdTail c rest

def gdOk : List Char → Bool
  | [] => true
  | c :: rest => !(c == '`') && gdTail c rest

/-- The following text defeats the `\s*\x60` walk: the walk either fails
outright or lands on a backtick that is immediately followed by another
backtick (a code fence), making the one-or-more capture empty. -/
def btB (T : List Char) : Prop :=
  skipWsThen '`' T = none ∨ ∃ Z, skipWsThen '`' T = some ('`' :: Z)

/-- The cell stage over text starting within `T` cannot complete a
match: wherever its closing pipe lands, the backtick stage fails. -/
def dcJ (T : List Char) : Prop := ∀ r, dropCell T = some r → matchKey r = none

/-- The opening of a details block. -/
def dtOpen : List Char := "<details><summary>전체 메시지 보기</summary>\n\n```\n".data

/-- The closing of a details block. -/
def dtClose : List Char := "\n```\n\n</details>\n".data

/-- Well-formedness of an item as tabulated: its file name contains no
pipe and no backtick, and its key is nonempty and backtick-free.  (The
message is arbitrary: escaping handles it.) -/
def wfItem (it : UnresolvedItem) : Prop :=
  (∀ c ∈ it.file, c ≠ '|') ∧ (∀ c ∈ it.file, c ≠ '`') ∧
    (∀ c ∈ it.key, c ≠ '`') ∧ it.key ≠ []

instance (it : UnresolvedItem) : Decidable (wfItem it) := by
  rw [wfItem]; infer_instance

/-! ## Lemmas about the key scan -/

/-- Unfolding of `matchAt` at a text of length at least two. -/
theorem matchAt_cons2 (c c1 : Char) (rest1 : List Char) :
    matchAt (c :: c1 :: rest1) =
      (if c = '|' then
        if c1 = '|' then none
        else
          match dropCell rest1 with
          | none => none
          | some r1 => matchKey r1
      else none) := rfl

/-- A match can only start at a `|`. -/
theorem matchAt_cons_ne (c : Char) (l : List Char) (h : c ≠ '|') :
    matchAt (c :: l) = none := by
  cases l with
  | nil => rfl
  | cons c1 rest1 => rw [matchAt_cons2, if_neg h]

/-- Adjacent pipes never open a match. -/
theorem matchAt_pipe_pipe (rest : List Char) : matchAt ('|' :: '|' :: rest) = none := by
  rw [matchAt_cons2, if_pos rfl, if_pos rfl]

/-- A pipe cell with no closing pipe never opens a match. -/
theorem matchAt_drop_none (c1 : Char) (rest1 : List Char) (hc1 : c1 ≠ '|')
    (h1 : dropCell rest1 = none) : matchAt ('|' :: c1 :: rest1) = none := by
  rw [matchAt_cons2, if_pos rfl, if_neg hc1, h1]

/-- After the cell and its closing pipe, the attempt continues as `matchKey`. -/
theorem matchAt_drop_some (c1 : Char) (rest1 r1 : List Char) (hc1 : c1 ≠ '|')
    (h1 : dropCell rest1 = some r1) : matchAt ('|' :: c1 :: rest1) = matchKey r1 := by
  rw [matchAt_cons2, if_pos rfl, if_neg hc1, h1]

/-- `matchKey` fails when no backtick is reachable through whitespace. -/
theorem matchKey_none (r1 : List Char) (h2 : skipWsThen '`' r1 = none) :
    matchKey r1 = none := by
  rw [matchKey, h2]

/-- After the opening backtick, the attempt continues as `matchKeyTail`. -/
theorem matchKey_some (r1 r2 : List Char) (h2 : skipWsThen '`' r1 = some r2) :
    matchKey r1 = matchKeyTail r2 := by
  rw [matchKey, h2]

/-- `matchKeyTail` fails when no closing backtick follows. -/
theorem matchKeyTail_none (r2 : List Char) (h3 : takeKey r2 = none) :
    matchKeyTail r2 = none := by
  rw [matchKeyTail, h3]

/-- After the captured key, the attempt continues as `matchTail`. -/
theorem matchKeyTail_some (r2 k r3 : List Char) (h3 : takeKey r2 = some (k, r3)) :
    matchKeyTail r2 = matchTail k r3 := by
  rw [matchKeyTail, h3]

/-- An empty capture fails (the capture group is `([^\x60]+)`, one or more). -/
theorem matchTail_empty (r3 : List Char) : matchTail [] r3 = none := rfl

/-- `matchTail` fails when no pipe is reachable through whitespace. -/
theorem matchTail_none (k r3 : List Char) (hk : ¬ k.isEmpty)
    (h4 : skipWsThen '|' r3 = none) : matchTail k r3 = none := by
  rw [matchTail, if_neg hk, h4]

/-- A nonempty key before the final `\s*\|` completes the match. -/
theorem matchTail_some (k r3 r4 : List Char) (hk : ¬ k.isEmpty)
    (h4 : skipWsThen '|' r3 = some r4) : matchTail k r3 = some (k, r4) := by
  rw [matchTail, if_neg hk, h4]

/-- `dropCell` consumes at least one character. -/
theorem dropCell_length : ∀ l r, dropCell l = some r → r.length < l.length := by
  intro l
  induction l with
  | nil => intro r h; exact absurd h (by simp [dropCell])
  | cons c rest ih =>
    intro r h
    rw [dropCell] at h
    by_cases hc : c = '|'
    · rw [if_pos hc] at h
      injection h with h
      rw [← h]
      simp
    · rw [if_neg hc] at h
      exact Nat.lt_trans (ih r h) (by simp)

/-- `skipWsThen` consumes at least one character. -/
theorem skipWsThen_length (c : Char) : ∀ l r, skipWsThen c l = some r → r.length < l.length := by
  intro l
  induction l with
  | nil => intro r h; exact absurd h (by simp [skipWsThen])
  | cons d rest ih =>
    intro r h
    rw [skipWsThen] at h
    by_cases hd : d = c
    · rw [if_pos hd] at h
      injection h with h
      rw [← h]
      simp
    · rw [if_neg hd] at h
      by_cases hw : isWsChar d
      · rw [if_pos hw] at h
        exact Nat.lt_trans (ih r h) (by simp)
      · rw [if_neg hw] at h
        exact absurd h (by simp)

/-- `takeKey` consumes at least one character. -/
theorem takeKey_length : ∀ l k r, takeKey l = some (k, r) → r.length < l.length := by
  intro l
  induction l with
  | nil => intro k r h; exact absurd h (by simp [takeKey])
  | cons c rest ih =>
    intro k r h
    rw [takeKey] at h
    by_cases hc : c = '`'
    · rw [if_pos hc] at h
      injection h with h
      rw [show r = rest from congrArg Prod.snd h.symm]
      simp
    · rw [if_neg hc] at h
      cases htk : takeKey rest with
      | none => rw [htk] at h; exact absurd h (by simp)
      | some p =>
        rw [htk] at h
        injection h with h
        have := ih p.1 p.2 (by rw [htk])
        have hr : r = p.2 := congrArg Prod.snd h.symm
        rw [hr]
        exact Nat.lt_trans this (by simp)

/-- A successful `matchTail` strictly shortens the text. -/
theorem matchTail_length : ∀ k r3 p, matchTail k r3 = some p → p.2.length < r3.length := by
  intro k r3 p h
  by_cases hk : k.isEmpty
  · rw [matchTail, if_pos hk] at h
    exact absurd h (by simp)
  · cases h4 : skipWsThen '|' r3 with
    | none => rw [matchTail_none k r3 hk h4] at h; exact absurd h (by simp)
    | some r4 =>
      rw [matchTail_some k r3 r4 hk h4] at h
      injection h with h
      rw [show p.2 = r4 from congrArg Prod.snd h.symm]
      exact skipWsThen_length '|' r3 r4 h4

/-- A successful `matchKeyTail` strictly shortens the text. -/
theorem matchKeyTail_length : ∀ r2 p, matchKeyTail r2 = some p → p.2.length < r2.length := by
  intro r2 p h
  cases h3 : takeKey r2 with
  | none => rw [matchKeyTail_none r2 h3] at h; exact absurd h (by simp)
  | some q =>
    rw [matchKeyTail_some r2 q.1 q.2 (by rw [h3])] at h
    have e4 := matchTail_length q.1 q.2 p h
    have e3 := takeKey_length r2 q.1 q.2 (by rw [h3])
    omega

/-- A successful `matchKey` strictly shortens the text. -/
theorem matchKey_length : ∀ r1 p, matchKey r1 = some p → p.2.length < r1.length := by
  intro r1 p h
  cases h2 : skipWsThen '`' r1 with
  | none => rw [matchKey_none r1 h2] at h; exact absurd h (by simp)
  | some r2 =>
    rw [matchKey_some r1 r2 h2] at h
    have e3 := matchKeyTail_length r2 p h
    have e2 := skipWsThen_length '`' r1 r2 h2
    omega

/-- A successful match strictly shortens the text. -/
theorem matchAt_length : ∀ l k after, matchAt l = some (k, after) → after.length < l.length := by
  intro l k after h
  match l with
  | [] => exact absurd h (by simp [matchAt])
  | [c] => exact absurd h (by simp [matchAt])
  | c :: c1 :: rest1 =>
    by_cases hc : c = '|'
    · subst hc
      by_cases hc1 : c1 = '|'
      · subst hc1
        rw [matchAt_pipe_pipe] at h
        exact absurd h (by simp)
      · cases h1 : dropCell rest1 with
        | none => rw [matchAt_drop_none c1 rest1 hc1 h1] at h; exact absurd h (by simp)
        | some r1 =>
          rw [matchAt_drop_some c1 rest1 r1 hc1 h1] at h
          have e2 : after.length < r1.length := matchKey_length r1 (k, after) h
          have e1 := dropCell_length rest1 r1 h1
          simp only [List.length_cons]
          omega
    · rw [matchAt_cons_ne c _ hc] at h
      exact absurd h (by simp)

/-- With enough fuel the scan does not depend on the exact fuel. -/
theorem scanKeysAux_fuel : ∀ f l, l.length ≤ f → scanKeysAux f l = scanKeysAux l.length l := by
  intro f
  induction f using Nat.strong_induction_on with
  | _ f ih =>
    intro l hl
    match f, l with
    | 0, l =>
      have hnil : l = [] := List.eq_nil_of_length_eq_zero (Nat.le_zero.mp hl)
      rw [hnil]
      rfl
    | f' + 1, [] => rfl
    | f' + 1, c :: rest =>
      have hr : rest.length ≤ f' := by simpa using hl
      rw [show scanKeysAux (f' + 1) (c :: rest)
            = (match matchAt (c :: rest) with
               | some (k, after) => k :: scanKeysAux f' after
               | none => scanKeysAux f' rest) from rfl]
      rw [show scanKeysAux (c :: rest).length (c :: rest)
            = (match matchAt (c :: rest) with
               | some (k, after) => k :: scanKeysAux rest.length after
               | none => scanKeysAux rest.length rest) from rfl]
      cases hm : matchAt (c :: rest) with
      | none =>
        rw [ih f' (Nat.lt_succ_self f') rest hr]
      | some p =>
        obtain ⟨k, after⟩ := p
        have ha : after.length ≤ rest.length := by
          have := matchAt_length (c :: rest) k after hm
          simpa [Nat.lt_succ_iff] using this
        show k :: scanKeysAux f' after = k :: scanKeysAux rest.length after
        rw [ih f' (Nat.lt_succ_self f') after (Nat.le_trans ha hr)]
        rw [ih rest.length (Nat.lt_succ_of_le hr) after ha]

/-- A failed anchored attempt advances the scan by one character. -/
theorem stepNone (c : Char) (l : List Char) (h : matchAt (c :: l) = none) :
    scanKeys (c :: l) = scanKeys l := by
  rw [scanKeys, scanKeys]
  rw [show scanKeysAux (c :: l).length (c :: l)
        = (match matchAt (c :: l) with
           | some (k, after) => k :: scanKeysAux l.length after
           | none => scanKeysAux l.length l) from rfl]
  rw [h]

/-- A successful anchored attempt captures its key and resumes after the
match. -/
theorem stepSome (c : Char) (l : List Char) (k after : List Char)
    (h : matchAt (c :: l) = some (k, after)) :
    scanKeys (c :: l) = k :: scanKeys after := by
  rw [scanKeys, scanKeys]
  rw [show scanKeysAux (c :: l).length (c :: l)
        = (match matchAt (c :: l) with
           | some (k, after) => k :: scanKeysAux l.length after
           | none => scanKeysAux l.length l) from rfl]
  rw [h]
  have ha : after.length ≤ l.length := by
    have := matchAt_length (c :: l) k after h
    simpa [Nat.lt_succ_iff] using this
  show k :: scanKeysAux l.length after = k :: scanKeys after
  rw [scanKeysAux_fuel l.length after ha]
  rfl

/-- The scan passes over pipe-free text. -/
theorem nopipeSkip : ∀ (S T : List Char), (∀ c ∈ S, c ≠ '|') →
    scanKeys (S ++ T) = scanKeys T := by
  intro S
  induction S with
  | nil => intro T _; rfl
  | cons c rest ih =>
    intro T h
    rw [List.cons_append,
      stepNone c (rest ++ T) (matchAt_cons_ne c _ (h c (by simp)))]
    exact ih T fun x hx => h x (by simp [hx])

/-- Pipe-free text yields no keys. -/
theorem scanKeys_nopipe (S : List Char) (h : ∀ c ∈ S, c ≠ '|') : scanKeys S = [] := by
  have := nopipeSkip S [] h
  simpa using this

/-! ### Single-step facts about the scanning primitives -/

/-- `skipWsThen` succeeds immediately at its target. -/
theorem skipWsThen_hit (c : Char) (l : List Char) : skipWsThen c (c :: l) = some l := by
  rw [skipWsThen, if_pos rfl]

/-- `skipWsThen` walks over a whitespace character. -/
theorem skipWsThen_ws (c d : Char) (l : List Char) (hd : d ≠ c) (hw : isWsChar d = true) :
    skipWsThen c (d :: l) = skipWsThen c l := by
  rw [skipWsThen, if_neg hd, if_pos hw]

/-- `skipWsThen` fails at a non-whitespace character other than its target. -/
theorem skipWsThen_stop (c d : Char) (l : List Char) (hd : d ≠ c) (hw : isWsChar d = false) :
    skipWsThen c (d :: l) = none := by
  rw [skipWsThen, if_neg hd, if_neg (by simp [hw])]

/-- `dropCell` closes at an immediate pipe. -/
theorem dropCell_pipe (l : List Char) : dropCell ('|' :: l) = some l := by
  rw [dropCell, if_pos rfl]

/-- `dropCell` walks over a non-pipe character. -/
theorem dropCell_skip (c : Char) (l : List Char) (h : c ≠ '|') :
    dropCell (c :: l) = dropCell l := by
  rw [dropCell, if_neg h]

/-- `dropCell` passes over a pipe-free prefix. -/
theorem dropCell_nopipe_append : ∀ A T : List Char, (∀ c ∈ A, c ≠ '|') →
    dropCell (A ++ T) = dropCell T := by
  intro A
  induction A with
  | nil => intro T _; rfl
  | cons c A' ih =>
    intro T h
    rw [List.cons_append, dropCell_skip c _ (h c (by simp))]
    exact ih T fun x hx => h x (by simp [hx])

/-- `dropCell` stops at the first pipe. -/
theorem dropCell_close (A T : List Char) (h : ∀ c ∈ A, c ≠ '|') :
    dropCell (A ++ '|' :: T) = some T := by
  rw [dropCell_nopipe_append A _ h, dropCell_pipe]

/-- `dropCell` fails on pipe-free text. -/
theorem dropCell_none (T : List Char) (h : ∀ c ∈ T, c ≠ '|') : dropCell T = none := by
  have := dropCell_nopipe_append T [] h
  simpa using this

/-- `takeKey` captures nothing before an immediate backtick. -/
theorem takeKey_hit (l : List Char) : takeKey ('`' :: l) = some ([], l) := by
  rw [takeKey, if_pos rfl]

/-- `takeKey` captures a backtick-free prefix up to the closing backtick. -/
theorem takeKey_close : ∀ A T : List Char, (∀ c ∈ A, c ≠ '`') →
    takeKey (A ++ '`' :: T) = some (A, T) := by
  intro A
  induction A with
  | nil => intro T _; exact takeKey_hit T
  | cons c A' ih =>
    intro T h
    rw [List.cons_append, takeKey, if_neg (h c (by simp)),
      ih T fun x hx => h x (by simp [hx])]

/-! ### The backslash guard of the escaped texts

In every text the escaping of index.js lines 147 and 153 emits, a
backtick only ever appears immediately after a backslash.  `gdTail p l`
states this for `l` read after a previous character `p`; `gdOk l`
additionally forbids a leading backtick.  Since a backslash is not
whitespace, the `\s*` walk towards the opening backtick of `keyRegex`
can never reach a backtick inside such a text. -/

/-- A guarded text is a guarded continuation after any character. -/
theorem gdTail_of_gdOk : ∀ (l : List Char) (p : Char), gdOk l = true → gdTail p l = true := by
  intro l p h
  cases l with
  | nil => rfl
  | cons c rest =>
    rw [gdOk, Bool.and_eq_true] at h
    rw [gdTail, Bool.and_eq_true, Bool.or_eq_true]
    exact ⟨Or.inl h.1, h.2⟩

/-- A guarded continuation after a non-backslash is a guarded text. -/
theorem gdOk_of_gdTail : ∀ (l : List Char) (p : Char), p ≠ '\\' → gdTail p l = true →
    gdOk l = true := by
  intro l p hp h
  cases l with
  | nil => rfl
  | cons c rest =>
    rw [gdTail, Bool.and_eq_true, Bool.or_eq_true] at h
    rw [gdOk, Bool.and_eq_true]
    refine ⟨?_, h.2⟩
    cases h.1 with
    | inl h1 => exact h1
    | inr h1 => exact absurd (by simpa using h1) hp

/-- Guarded continuations concatenate. -/
theorem gdTail_append : ∀ (A : List Char) (p : Char) (B : List Char),
    gdTail p A = true → gdOk B = true → gdTail p (A ++ B) = true := by
  intro A
  induction A with
  | nil => intro p B _ hb; exact gdTail_of_gdOk B p hb
  | cons c A' ih =>
    intro p B h hb
    rw [gdTail, Bool.and_eq_true] at h
    rw [List.cons_append, gdTail, Bool.and_eq_true]
    exact ⟨h.1, ih c B h.2 hb⟩

/-- Guarded texts concatenate. -/
theorem gdOk_append (A B : List Char) (ha : gdOk A = true) (hb : gdOk B = true) :
    gdOk (A ++ B) = true := by
  cases A with
  | nil => exact hb
  | cons c A' =>
    rw [gdOk, Bool.and_eq_true] at ha
    rw [List.cons_append, gdOk, Bool.and_eq_true]
    exact ⟨ha.1, gdTail_append A' c B ha.2 hb⟩

/-- A backtick-free text is a guarded continuation. -/
theorem gdTail_nobt : ∀ (l : List Char) (p : Char), (∀ c ∈ l, c ≠ '`') →
    gdTail p l = true := by
  intro l
  induction l with
  | nil => intro p _; rfl
  | cons c l' ih =>
    intro p h
    rw [gdTail, Bool.and_eq_true, Bool.or_eq_true]
    exact ⟨Or.inl (by simpa using h c (by simp)), ih c fun x hx => h x (by simp [hx])⟩

/-- A backtick-free text is guarded. -/
theorem gdOk_nobt (l : List Char) (h : ∀ c ∈ l, c ≠ '`') : gdOk l = true := by
  cases l with
  | nil => rfl
  | cons c l' =>
    rw [gdOk, Bool.and_eq_true]
    exact ⟨by simpa using h c (by simp), gdTail_nobt l' c fun x hx => h x (by simp [hx])⟩

/-- Guarded continuations are closed under prefixes. -/
theorem gdTail_take : ∀ (l : List Char) (n : Nat) (p : Char), gdTail p l = true →
    gdTail p (l.take n) = true := by
  intro l
  induction l with
  | nil => intro n p _; rw [List.take_nil]; rfl
  | cons c l' ih =>
    intro n p h
    cases n with
    | zero => rfl
    | succ n' =>
      rw [gdTail, Bool.and_eq_true] at h
      rw [List.take_succ_cons, gdTail, Bool.and_eq_true]
      exact ⟨h.1, ih n' c h.2⟩

/-- Guarded texts are closed under prefixes. -/
theorem gdOk_take (l : List Char) (n : Nat) (h : gdOk l = true) : gdOk (l.take n) = true := by
  cases l with
  | nil => rw [List.take_nil]; rfl
  | cons c l' =>
    cases n with
    | zero => rfl
    | succ n' =>
      rw [gdOk, Bool.and_eq_true] at h
      rw [List.take_succ_cons, gdOk, Bool.and_eq_true]
      exact ⟨h.1, gdTail_take l' n' c h.2⟩

/-- Whitespace is never a backslash. -/
theorem ws_ne_backslash (c : Char) (h : isWsChar c = true) : c ≠ '\\' := by
  intro he
  rw [he] at h
  exact absurd h (by decide)

/-- The `\s*` walk towards a backtick fails inside a guarded text followed
by a non-whitespace, non-backtick blocker. -/
theorem skipGd : ∀ s : List Char, gdOk s = true → ∀ (b : Char) (T : List Char),
    isWsChar b = false → b ≠ '`' → skipWsThen '`' (s ++ b :: T) = none := by
  intro s
  induction s with
  | nil => intro _ b T hb hb'; exact skipWsThen_stop '`' b T hb' hb
  | cons c s' ih =>
    intro h b T hb hb'
    rw [gdOk, Bool.and_eq_true] at h
    have hc : c ≠ '`' := by simpa using h.1
    rw [List.cons_append]
    by_cases hw : isWsChar c = true
    · rw [skipWsThen_ws '`' c _ hc hw]
      exact ih (gdOk_of_gdTail s' c (ws_ne_backslash c hw) h.2) b T hb hb'
    · exact skipWsThen_stop '`' c _ hc (by simpa using hw)

/-- Inside a guarded text the `\s*` walk towards a backtick either fails
or passes clean through into the following text. -/
theorem gdFenceWalk : ∀ s T : List Char, gdOk s = true →
    skipWsThen '`' (s ++ T) = none ∨ skipWsThen '`' (s ++ T) = skipWsThen '`' T := by
  intro s
  induction s with
  | nil => intro T _; exact Or.inr rfl
  | cons c s' ih =>
    intro T h
    rw [gdOk, Bool.and_eq_true] at h
    have hc : c ≠ '`' := by simpa using h.1
    rw [List.cons_append]
    by_cases hw : isWsChar c = true
    · rw [skipWsThen_ws '`' c _ hc hw]
      exact ih T (gdOk_of_gdTail s' c (ws_ne_backslash c hw) h.2)
    · exact Or.inl (skipWsThen_stop '`' c _ hc (by simpa using hw))

/-- Every atom the cell escaping emits is guarded. -/
theorem gdOk_escCell (c : Char) : gdOk (escCellChar c) = true := by
  rw [escCellChar]
  by_cases h1 : c = '|'
  · rw [if_pos h1]; rfl
  · rw [if_neg h1]
    by_cases h2 : c = '\n'
    · rw [if_pos h2]; rfl
    · rw [if_neg h2]
      by_cases h3 : c = '`'
      · rw [if_pos h3]; rfl
      · rw [if_neg h3]
        exact gdOk_nobt [c] (by simpa using h3)

/-- Every atom the detail escaping emits is guarded. -/
theorem gdOk_escDet (c : Char) : gdOk (escDetChar c) = true := by
  rw [escDetChar]
  by_cases h1 : c = '|'
  · rw [if_pos h1]; rfl
  · rw [if_neg h1]
    by_cases h3 : c = '`'
    · rw [if_pos h3]; rfl
    · rw [if_neg h3]
      exact gdOk_nobt [c] (by simpa using h3)

/-- The escaped cell message is guarded. -/
theorem gdOk_escapedMessage (m : List Char) : gdOk (escapedMessage m) = true := by
  induction m with
  | nil => rfl
  | cons c m' ih =>
    rw [escapedMessage, List.flatMap_cons]
    exact gdOk_append _ _ (gdOk_escCell c) ih

/-- The detail-escaped message is guarded. -/
theorem gdOk_detailsMessage (m : List Char) : gdOk (detailsMessage m) = true := by
  induction m with
  | nil => rfl
  | cons c m' ih =>
    rw [detailsMessage, List.flatMap_cons]
    exact gdOk_append _ _ (gdOk_escDet c) ih

/-- The display message (escaped, possibly truncated) is guarded. -/
theorem gdOk_displayMessage (m : List Char) : gdOk (displayMessage m) = true := by
  rw [displayMessage]
  by_cases ho : overflows m = true
  · rw [if_pos ho]
    exact gdOk_append _ _ (gdOk_take _ 100 (gdOk_escapedMessage m)) (by decide)
  · rw [if_neg ho]
    exact gdOk_escapedMessage m

/-! ### Failure of the backtick stage -/

/-- A match attempt whose walk lands on a fence captures nothing and
fails. -/
theorem matchKey_fence (r1 Z : List Char) (h : skipWsThen '`' r1 = some ('`' :: Z)) :
    matchKey r1 = none := by
  rw [matchKey_some r1 _ h, matchKeyTail_some _ [] Z (takeKey_hit Z), matchTail_empty]

/-- A match attempt against a defeating text fails. -/
theorem matchKey_of_btB (r1 : List Char) (h : btB r1) : matchKey r1 = none := by
  cases h with
  | inl h => exact matchKey_none r1 h
  | inr h => exact matchKey_fence r1 h.choose h.choose_spec

/-- Prepending a guarded text preserves defeat. -/
theorem btB_gd (s T : List Char) (hs : gdOk s = true) (hT : btB T) : btB (s ++ T) := by
  cases gdFenceWalk s T hs with
  | inl h => exact Or.inl h
  | inr h =>
    cases hT with
    | inl h' => exact Or.inl (by rw [h, h'])
    | inr h' =>
      obtain ⟨Z, hZ⟩ := h'
      exact Or.inr ⟨Z, by rw [h, hZ]⟩

/-- A match attempt starting inside a guarded text before a defeating
text fails. -/
theorem matchKey_gd (s T : List Char) (hs : gdOk s = true) (hT : btB T) :
    matchKey (s ++ T) = none :=
  matchKey_of_btB _ (btB_gd s T hs hT)

/-- Pipe-free text is junction-safe. -/
theorem dcJ_nopipe (T : List Char) (h : ∀ c ∈ T, c ≠ '|') : dcJ T := by
  intro r hr
  rw [dropCell_none T h] at hr
  exact absurd hr (by simp)

/-- A pipe-free prefix preserves junction safety. -/
theorem dcJ_nopipe_append (A T : List Char) (hA : ∀ c ∈ A, c ≠ '|') (hT : dcJ T) :
    dcJ (A ++ T) := by
  intro r hr
  rw [dropCell_nopipe_append A T hA] at hr
  exact hT r hr

/-- Inside a guarded continuation, `dropCell` either passes through to
the following text or stops after a pipe of the guarded part, leaving a
guarded remainder. -/
theorem dropCell_gd_append : ∀ (A : List Char) (p : Char) (T : List Char),
    gdTail p A = true →
    dropCell (A ++ T) = dropCell T ∨
      ∃ Y, dropCell (A ++ T) = some (Y ++ T) ∧ gdOk Y = true := by
  intro A
  induction A with
  | nil => intro p T _; exact Or.inl rfl
  | cons c A' ih =>
    intro p T h
    rw [gdTail, Bool.and_eq_true] at h
    rw [List.cons_append]
    by_cases hc : c = '|'
    · refine Or.inr ⟨A', ?_, ?_⟩
      · rw [hc, dropCell_pipe]
      · exact gdOk_of_gdTail A' c (by rw [hc]; decide) h.2
    · rw [dropCell_skip c _ hc]
      exact ih c T h.2

/-- A guarded prefix preserves junction safety, provided the following
text defeats the backtick walk. -/
theorem dcJ_gd_append (A T : List Char) (hA : gdOk A = true) (hbt : btB T) (hT : dcJ T) :
    dcJ (A ++ T) := by
  intro r hr
  cases dropCell_gd_append A ' ' T (gdTail_of_gdOk A ' ' hA) with
  | inl he =>
    rw [he] at hr
    exact hT r hr
  | inr he =>
    obtain ⟨Y, he, hY⟩ := he
    rw [he] at hr
    injection hr with hr
    rw [← hr]
    exact matchKey_gd Y T hY hbt

/-- The scan passes over a guarded continuation whose following text is
junction-safe and defeats the backtick walk: no attempt inside it can
succeed. -/
theorem scanSkipGd : ∀ (E : List Char) (p : Char) (REST : List Char), gdTail p E = true →
    btB REST → dcJ REST → scanKeys (E ++ REST) = scanKeys REST := by
  intro E
  induction E with
  | nil => intro _ _ _ _ _; rfl
  | cons c E' ih =>
    intro p REST h hbt hdc
    rw [gdTail, Bool.and_eq_true] at h
    have hfail : matchAt (c :: (E' ++ REST)) = none := by
      by_cases hc : c = '|'
      · subst hc
        cases E' with
        | nil =>
          cases REST with
          | nil => rfl
          | cons c1 R' =>
            rw [List.nil_append]
            by_cases hc1 : c1 = '|'
            · subst hc1
              exact matchAt_pipe_pipe R'
            · cases hd : dropCell R' with
              | none => exact matchAt_drop_none c1 R' hc1 hd
              | some r =>
                rw [matchAt_drop_some c1 R' r hc1 hd]
                exact hdc r (by rw [show dropCell (c1 :: R') = dropCell R' from
                  dropCell_skip c1 R' hc1, hd])
        | cons c1 E'' =>
          rw [gdTail, Bool.and_eq_true] at h
          by_cases hc1 : c1 = '|'
          · subst hc1
            rw [List.cons_append]
            exact matchAt_pipe_pipe (E'' ++ REST)
          · rw [List.cons_append]
            cases dropCell_gd_append E'' c1 REST h.2.2 with
            | inl he =>
              cases hd : dropCell REST with
              | none => exact matchAt_drop_none c1 _ hc1 (by rw [he, hd])
              | some r =>
                rw [matchAt_drop_some c1 _ r hc1 (by rw [he, hd])]
                exact hdc r hd
            | inr he =>
              obtain ⟨Y, he, hY⟩ := he
              rw [matchAt_drop_some c1 _ _ hc1 he]
              exact matchKey_gd Y REST hY hbt
      · exact matchAt_cons_ne c _ hc
    rw [List.cons_append, stepNone c _ hfail]
    cases E' with
    | nil => rfl
    | cons c2 E2 => exact ih c REST h.2 hbt hdc

/-! ### Scanning a rendered table -/

/-- A guarded-text wrapper for `scanSkipGd`. -/
theorem scanSkipGdOk (E REST : List Char) (hE : gdOk E = true) (hbt : btB REST)
    (hdc : dcJ REST) : scanKeys (E ++ REST) = scanKeys REST :=
  scanSkipGd E ' ' REST (gdTail_of_gdOk E ' ' hE) hbt hdc

/-- A rendered row followed by anything, in head-normal form. -/
theorem rowText_shape (f k d X : List Char) :
    rowText f k d ++ X =
      '|' :: ' ' :: (f ++ ' ' :: '|' :: ' ' :: '`' ::
        (k ++ '`' :: ' ' :: '|' :: ' ' :: (d ++ ' ' :: '|' :: '\n' :: X))) := by
  rw [rowText,
    show ("| ".data : List Char) = ['|', ' '] from rfl,
    show (" | `".data : List Char) = [' ', '|', ' ', '`'] from rfl,
    show ("` | ".data : List Char) = ['`', ' ', '|', ' '] from rfl,
    show (" |\n".data : List Char) = [' ', '|', '\n'] from rfl]
  simp [List.append_assoc]

/-- The anchored attempt at the head of a rendered row succeeds,
capturing exactly the row's key and ending after the third pipe. -/
theorem matchAt_row (f k d X : List Char) (hf : ∀ c ∈ f, c ≠ '|')
    (hk : ∀ c ∈ k, c ≠ '`') (hk0 : k ≠ []) :
    matchAt (rowText f k d ++ X) =
      some (k, ' ' :: (d ++ ' ' :: '|' :: '\n' :: X)) := by
  have hke : ¬ (k.isEmpty = true) := by
    cases k with
    | nil => exact absurd rfl hk0
    | cons a l => simp
  have hcell : dropCell (f ++ ' ' :: '|' :: ' ' :: '`' ::
      (k ++ '`' :: ' ' :: '|' :: ' ' :: (d ++ ' ' :: '|' :: '\n' :: X))) =
      some (' ' :: '`' :: (k ++ '`' :: ' ' :: '|' :: ' ' :: (d ++ ' ' :: '|' :: '\n' :: X))) := by
    have : f ++ ' ' :: '|' :: ' ' :: '`' ::
        (k ++ '`' :: ' ' :: '|' :: ' ' :: (d ++ ' ' :: '|' :: '\n' :: X)) =
        (f ++ [' ']) ++ '|' :: (' ' :: '`' ::
          (k ++ '`' :: ' ' :: '|' :: ' ' :: (d ++ ' ' :: '|' :: '\n' :: X))) := by
      simp
    rw [this]
    refine dropCell_close _ _ ?_
    intro c hc
    rw [List.mem_append] at hc
    cases hc with
    | inl hc => exact hf c hc
    | inr hc => simp at hc; rw [hc]; decide
  rw [rowText_shape, matchAt_drop_some ' ' _ _ (by decide) hcell,
    matchKey_some _ _ (by rw [skipWsThen_ws '`' ' ' _ (by decide) (by decide), skipWsThen_hit]),
    matchKeyTail_some _ k _ (takeKey_close k _ hk),
    matchTail_some k _ _ hke
      (by rw [skipWsThen_ws '|' ' ' _ (by decide) (by decide), skipWsThen_hit])]

/-- The scan of a rendered row captures its key and resumes in the row
tail. -/
theorem scan_row (f k d X : List Char) (hf : ∀ c ∈ f, c ≠ '|')
    (hk : ∀ c ∈ k, c ≠ '`') (hk0 : k ≠ []) :
    scanKeys (rowText f k d ++ X) =
      k :: scanKeys (' ' :: (d ++ ' ' :: '|' :: '\n' :: X)) := by
  have hm := matchAt_row f k d X hf hk hk0
  rw [rowText_shape] at hm ⊢
  exact stepSome '|' _ k _ hm

/-- The details block, decomposed. -/
theorem detailsText_eq (m : List Char) :
    detailsText m = dtOpen ++ (detailsMessage m ++ dtClose) := by
  rw [detailsText, dtOpen, dtClose, List.append_assoc]

/-- The closing fence defeats the backtick walk. -/
theorem btB_dtClose (R : List Char) : btB (dtClose ++ R) := by
  refine Or.inr ⟨"`\n\n</details>\n".data ++ R, ?_⟩
  rw [show dtClose ++ R = '\n' :: ('`' :: ('`' :: ("`\n\n</details>\n".data ++ R))) from rfl,
    skipWsThen_ws '`' '\n' _ (by decide) (by decide), skipWsThen_hit]

/-- The details tail is junction-safe when the following text is. -/
theorem dcJ_dtClose (R : List Char) (h : dcJ R) : dcJ (dtClose ++ R) :=
  dcJ_nopipe_append dtClose R (by decide) h

/-- The scan passes over a whole details block. -/
theorem detailsSkip (m R : List Char) (hdc : dcJ R) :
    scanKeys (detailsText m ++ R) = scanKeys R := by
  rw [detailsText_eq, List.append_assoc, nopipeSkip dtOpen _ (by decide), List.append_assoc,
    scanSkipGdOk (detailsMessage m) _ (gdOk_detailsMessage m) (btB_dtClose R) (dcJ_dtClose R hdc),
    nopipeSkip dtClose R (by decide)]

/-- A details block defeats the backtick walk at its head. -/
theorem btB_details (m R : List Char) : btB (detailsText m ++ R) := by
  refine Or.inl ?_
  rw [detailsText_eq, List.append_assoc,
    show dtOpen ++ (detailsMessage m ++ dtClose ++ R) =
      '<' :: ("details><summary>전체 메시지 보기</summary>\n\n```\n".data ++
        (detailsMessage m ++ dtClose ++ R)) from rfl]
  exact skipWsThen_stop '`' '<' _ (by decide) (by decide)

/-- A details block is junction-safe when the following text is. -/
theorem dcJ_details (m R : List Char) (hdc : dcJ R) : dcJ (detailsText m ++ R) := by
  rw [detailsText_eq, List.append_assoc]
  refine dcJ_nopipe_append dtOpen _ (by decide) ?_
  rw [List.append_assoc]
  exact dcJ_gd_append (detailsMessage m) _ (gdOk_detailsMessage m) (btB_dtClose R)
    (dcJ_dtClose R hdc)

/-- The scan of one item's lines captures exactly its key. -/
theorem itemLines_step (it : UnresolvedItem) (R : List Char) (hw : wfItem it)
    (hbt : btB R) (hdc : dcJ R) :
    scanKeys (itemLines it ++ R) = it.key :: scanKeys R := by
  obtain ⟨hf, _, hk, hk0⟩ := hw
  rw [itemLines]
  by_cases ho : overflows it.message = true
  · rw [if_pos ho, List.append_assoc,
      scan_row it.file it.key _ _ hf hk hk0]
    have hsh : (' ' :: (displayMessage it.message ++ [' ', '|', '\n'])) ++
        (detailsText it.message ++ R) =
        ' ' :: (displayMessage it.message ++ ' ' :: '|' :: '\n' ::
          (detailsText it.message ++ R)) := by
      simp
    rw [← hsh,
      scanSkipGdOk (' ' :: (displayMessage it.message ++ [' ', '|', '\n'])) _
        (show gdOk (' ' :: (displayMessage it.message ++ [' ', '|', '\n'])) = true from
          gdOk_append [' '] _ (by decide)
            (gdOk_append _ [' ', '|', '\n'] (gdOk_displayMessage it.message) (by decide)))
        (btB_details it.message R) (dcJ_details it.message R hdc),
      detailsSkip it.message R hdc]
  · rw [if_neg ho, List.append_nil,
      scan_row it.file it.key _ _ hf hk hk0]
    have hsh : (' ' :: (displayMessage it.message ++ [' ', '|', '\n'])) ++ R =
        ' ' :: (displayMessage it.message ++ ' ' :: '|' :: '\n' :: R) := by
      simp
    rw [← hsh,
      scanSkipGdOk (' ' :: (displayMessage it.message ++ [' ', '|', '\n'])) _
        (show gdOk (' ' :: (displayMessage it.message ++ [' ', '|', '\n'])) = true from
          gdOk_append [' '] _ (by decide)
            (gdOk_append _ [' ', '|', '\n'] (gdOk_displayMessage it.message) (by decide)))
        hbt hdc]

/-- Rendering rows is a homomorphism for batch concatenation. -/
theorem rowsText_append : ∀ A B : List UnresolvedItem,
    rowsText (A ++ B) = rowsText A ++ rowsText B := by
  intro A
  induction A with
  | nil => intro B; rfl
  | cons it A' ih =>
    intro B
    rw [List.cons_append, rowsText, rowsText, ih, List.append_assoc]

/-- A rendered batch followed by a defeating text defeats the backtick
walk: either the batch is empty, or its first character is a pipe. -/
theorem btB_rows (items : List UnresolvedItem) (F : List Char) (hF : btB F) :
    btB (rowsText items ++ F) := by
  cases items with
  | nil => simpa [show rowsText [] = ([] : List Char) from rfl] using hF
  | cons it rest =>
    refine Or.inl ?_
    have hsh : rowsText (it :: rest) ++ F =
        rowText it.file it.key (displayMessage it.message) ++
          ((if overflows it.message = true then detailsText it.message else []) ++
            (rowsText rest ++ F)) := by
      rw [rowsText, itemLines]
      simp [List.append_assoc]
    rw [hsh, rowText_shape]
    exact skipWsThen_stop '`' '|' _ (by decide) (by decide)

/-- A rendered batch followed by a junction-safe text is junction-safe,
provided the first item's file name is backtick-free. -/
theorem dcJ_rows (items : List UnresolvedItem) (F : List Char)
    (hfile : ∀ it ∈ items, ∀ c ∈ it.file, c ≠ '`') (hF : dcJ F) :
    dcJ (rowsText items ++ F) := by
  cases items with
  | nil =>
    rw [show rowsText [] = ([] : List Char) from rfl, List.nil_append]
    exact hF
  | cons it rest =>
    intro r hr
    have hsh : rowsText (it :: rest) ++ F =
        rowText it.file it.key (displayMessage it.message) ++
          ((if overflows it.message = true then detailsText it.message else []) ++
            (rowsText rest ++ F)) := by
      rw [rowsText, itemLines]
      simp [List.append_assoc]
    rw [hsh, rowText_shape, dropCell_pipe] at hr
    injection hr with hr
    rw [← hr]
    have hgd : gdOk (' ' :: (it.file ++ [' '])) = true := by
      refine gdOk_nobt _ ?_
      intro c hc
      simp at hc
      rcases hc with hc | hc | hc
      · rw [hc]; decide
      · exact hfile it (by simp) c hc
      · rw [hc]; decide
    have hsh2 : ' ' :: (it.file ++ ' ' :: '|' :: ' ' :: '`' ::
        (it.key ++ '`' :: ' ' :: '|' :: ' ' :: (displayMessage it.message ++ ' ' :: '|' :: '\n' ::
          ((if overflows it.message = true then detailsText it.message else []) ++
            (rowsText rest ++ F))))) =
        (' ' :: (it.file ++ [' '])) ++ '|' :: (' ' :: '`' ::
          (it.key ++ '`' :: ' ' :: '|' :: ' ' :: (displayMessage it.message ++ ' ' :: '|' :: '\n' ::
            ((if overflows it.message = true then detailsText it.message else []) ++
              (rowsText rest ++ F))))) := by
      simp
    rw [hsh2]
    exact matchKey_none _ (skipGd _ hgd '|' _ (by decide) (by decide))

/-- The scan of a rendered batch followed by a pipe-free, defeating
footer recovers exactly the batch's keys, in order. -/
theorem scanKeys_rows : ∀ (items : List UnresolvedItem) (F : List Char),
    (∀ it ∈ items, wfItem it) → (∀ c ∈ F, c ≠ '|') → btB F →
    scanKeys (rowsText items ++ F) = items.map (fun it => it.key) := by
  intro items
  induction items with
  | nil =>
    intro F _ hFp _
    rw [show rowsText [] = ([] : List Char) from rfl, List.nil_append,
      scanKeys_nopipe F hFp]
    rfl
  | cons it rest ih =>
    intro F hw hFp hbtF
    have hsh : rowsText (it :: rest) ++ F = itemLines it ++ (rowsText rest ++ F) := by
      rw [rowsText, List.append_assoc]
    rw [hsh,
      itemLines_step it _ (hw it (by simp)) (btB_rows rest F hbtF)
        (dcJ_rows rest F (fun x hx => (hw x (by simp [hx])).2.1) (dcJ_nopipe F hFp)),
      ih F (fun x hx => hw x (by simp [hx])) hFp hbtF]
    rfl

/-- The body header contains no pipe when the interpolated fields do
not. -/
theorem header_nopipe (gdn m t : List Char) (hg : ∀ c ∈ gdn, c ≠ '|')
    (hm : ∀ c ∈ m, c ≠ '|') (ht : ∀ c ∈ t, c ≠ '|') :
    ∀ c ∈ headerText gdn m t, c ≠ '|' := by
  intro c hc
  rw [headerText] at hc
  simp only [List.mem_append] at hc
  rcases hc with ((((((hc | hc) | hc) | hc) | hc) | hc) | hc)
  · exact (by decide : ∀ x ∈ ("## 번역 거부 항목\n\n**게임**: ".data : List Char), x ≠ '|') c hc
  · exact hg c hc
  · exact (by decide : ∀ x ∈ ("\n**모드**: ".data : List Char), x ≠ '|') c hc
  · exact hm c hc
  · exact (by decide : ∀ x ∈ ("\n**발생 시간**: ".data : List Char), x ≠ '|') c hc
  · exact ht c hc
  · exact (by decide : ∀ x ∈ ("\n\n### 항목 목록\n\n".data : List Char), x ≠ '|') c hc

/-- The scan of a full rendered body (header, table header and
separator, rows, footer) recovers exactly the batch's keys. -/
theorem scanKeys_body (gdn m ts : List Char) (items : List UnresolvedItem) (F : List Char)
    (hg : ∀ c ∈ gdn, c ≠ '|') (hm : ∀ c ∈ m, c ≠ '|') (ht : ∀ c ∈ ts, c ≠ '|')
    (hw : ∀ it ∈ items, wfItem it) (hFp : ∀ c ∈ F, c ≠ '|') (hbtF : btB F) :
    scanKeys (headerText gdn m ts ++ (thsepText ++ (rowsText items ++ F))) =
      items.map (fun it => it.key) := by
  rw [nopipeSkip _ _ (header_nopipe gdn m ts hg hm ht),
    scanSkipGdOk thsepText _ (by decide) (btB_rows items F hbtF)
      (dcJ_rows items F (fun x hx => (hw x hx).2.1) (dcJ_nopipe F hFp))]
  exact scanKeys_rows items F hw hFp hbtF

set_option maxRecDepth 10000 in
set_option maxHeartbeats 2000000 in
/-- The create footer contains no pipe. -/
theorem footerText_nopipe : ∀ c ∈ footerText, c ≠ '|' := by decide

set_option maxRecDepth 10000 in
set_option maxHeartbeats 2000000 in
/-- The create footer defeats the backtick walk. -/
theorem footerText_btB : btB footerText := Or.inl (by decide)

/-- C4.  Round-trip: for every batch, running the key extractor
(`keyRegex` over the whole body, index.js lines 87-91) on the record
body freshly produced by the create path (index.js lines 177-204)
recovers exactly the keys of the batch's items, in order — no key is
missed and no key is fabricated, including when messages contain pipes,
backticks, or newlines that trigger escaping and collapsible detail
blocks.  The interpolated display name, mod and timestamp must not
contain pipes, and each item's file name must be pipe- and
backtick-free with a nonempty backtick-free key. -/
theorem claim_C4_roundtrip (gdn m ts : List Char) (items : List UnresolvedItem)
    (hg : ∀ c ∈ gdn, c ≠ '|') (hm : ∀ c ∈ m, c ≠ '|') (ht : ∀ c ∈ ts, c ≠ '|')
    (hw : ∀ it ∈ items, wfItem it) :
    scanKeys (createBody gdn m ts items) = items.map (fun it => it.key) := by
  rw [createBody, List.append_assoc, List.append_assoc]
  exact scanKeys_body gdn m ts items footerText hg hm ht hw footerText_nopipe footerText_btB

set_option maxRecDepth 100000 in
set_option maxHeartbeats 2000000 in
/-- Witness for C4: a two-item batch whose first message contains a pipe
and backticks and whose second message contains a newline (turning on
the collapsible details block); the scan of the created body returns
exactly the two keys. -/
theorem claim_C4_witness :
    (∀ it ∈ [UnresolvedItem.mk "mymod".data "events/f1.txt".data "EVENT.1".data
        "has|pipe and `tick`".data,
      UnresolvedItem.mk "mymod".data "events/f2.txt".data "EVENT.2".data
        "line1\nline2 | with `fence`".data], wfItem it) ∧
    scanKeys (createBody "CK3".data "mymod".data "2024-01-01T00:00:00Z".data
        [UnresolvedItem.mk "mymod".data "events/f1.txt".data "EVENT.1".data
          "has|pipe and `tick`".data,
        UnresolvedItem.mk "mymod".data "events/f2.txt".data "EVENT.2".data
          "line1\nline2 | with `fence`".data]) =
      ["EVENT.1".data, "EVENT.2".data] :=
  ⟨by decide,
    claim_C4_roundtrip "CK3".data "mymod".data "2024-01-01T00:00:00Z".data
      [UnresolvedItem.mk "mymod".data "events/f1.txt".data "EVENT.1".data
        "has|pipe and `tick`".data,
      UnresolvedItem.mk "mymod".data "events/f2.txt".data "EVENT.2".data
        "line1\nline2 | with `fence`".data]
      (by decide) (by decide) (by decide) (by decide)⟩

/-! ### The per-mod reconciliation loop -/

/-- `reconcileGroup` on an existing record, with its let-bindings
expanded. -/
theorem reconcileGroup_some_eq (body gdn m t : List Char) (items : List UnresolvedItem) :
    reconcileGroup (some body) gdn m t items =
      (if (items.filter fun it => !((scanKeys body).contains it.key)).isEmpty then RAction.noop
       else
         match firstPipeLine (splitLines (cutAtPat nlDashNl (removeTs body))) with
         | none => RAction.skipped
         | some tsl =>
           RAction.update
             ((cutAtPat nlDashNl (removeTs body)).take
                 (insertPos (cutAtPat nlDashNl (removeTs body))
                   (tableEndLine (splitLines (cutAtPat nlDashNl (removeTs body))) tsl)) ++
               rowsText (items.filter fun it => !((scanKeys body).contains it.key)) ++
               (cutAtPat nlDashNl (removeTs body)).drop
                 (insertPos (cutAtPat nlDashNl (removeTs body))
                   (tableEndLine (splitLines (cutAtPat nlDashNl (removeTs body))) tsl)) ++
               updateSuffix t)) := rfl

/-- The no-new-items path of the loop. -/
theorem reconcileGroup_noop (body gdn m t : List Char) (items : List UnresolvedItem)
    (h : (items.filter fun it => !((scanKeys body).contains it.key)).isEmpty = true) :
    reconcileGroup (some body) gdn m t items = RAction.noop := by
  rw [reconcileGroup_some_eq, if_pos h]

/-- The warn-and-skip path of the loop. -/
theorem reconcileGroup_skipped (body gdn m t : List Char) (items : List UnresolvedItem)
    (h : (items.filter fun it => !((scanKeys body).contains it.key)).isEmpty = false)
    (h2 : firstPipeLine (splitLines (cutAtPat nlDashNl (removeTs body))) = none) :
    reconcileGroup (some body) gdn m t items = RAction.skipped := by
  rw [reconcileGroup_some_eq, if_neg (by rw [h]; decide), h2]

/-- The splice-and-update path of the loop. -/
theorem reconcileGroup_update (body gdn m t : List Char) (items : List UnresolvedItem)
    (tsl : Nat)
    (h : (items.filter fun it => !((scanKeys body).contains it.key)).isEmpty = false)
    (h2 : firstPipeLine (splitLines (cutAtPat nlDashNl (removeTs body))) = some tsl) :
    reconcileGroup (some body) gdn m t items =
      RAction.update
        ((cutAtPat nlDashNl (removeTs body)).take
            (insertPos (cutAtPat nlDashNl (removeTs body))
              (tableEndLine (splitLines (cutAtPat nlDashNl (removeTs body))) tsl)) ++
          rowsText (items.filter fun it => !((scanKeys body).contains it.key)) ++
          (cutAtPat nlDashNl (removeTs body)).drop
            (insertPos (cutAtPat nlDashNl (removeTs body))
              (tableEndLine (splitLines (cutAtPat nlDashNl (removeTs body))) tsl)) ++
          updateSuffix t) := by
  rw [reconcileGroup_some_eq, if_neg (by rw [h]; decide), h2]

/-- An updated body replaces the record body. -/
theorem resultBody_update (e : Option (List Char)) (b : List Char) :
    resultBody e (RAction.update b) = b := rfl

/-- A no-op keeps the record body. -/
theorem resultBody_noop_some (b : List Char) : resultBody (some b) RAction.noop = b := rfl

/-- Key-set membership agrees with list membership. -/
theorem containsK (l : List (List Char)) (a : List Char) : l.contains a = true ↔ a ∈ l := by
  simp

/-- Membership refutes the new-item test. -/
theorem contains_eq_true (l : List (List Char)) (a : List Char) (h : a ∈ l) :
    l.contains a = true := (containsK l a).mpr h

/-- Non-membership passes the new-item test. -/
theorem contains_eq_false (l : List (List Char)) (a : List Char) (h : ¬ a ∈ l) :
    l.contains a = false := by
  cases hc : l.contains a with
  | false => rfl
  | true => exact absurd ((containsK l a).mp hc) h

set_option maxRecDepth 10000 in
set_option maxHeartbeats 1000000 in
/-- The dynamic update suffix contains no pipe when the timestamp does
not. -/
theorem updateSuffix_nopipe (t : List Char) (ht : ∀ c ∈ t, c ≠ '|') :
    ∀ c ∈ updateSuffix t, c ≠ '|' := by
  intro c hc
  rw [updateSuffix] at hc
  simp only [List.mem_append] at hc
  rcases hc with (hc | hc) | hc
  · exact (by decide : ∀ x ∈ ("\n**마지막 업데이트**: ".data : List Char), x ≠ '|') c hc
  · exact ht c hc
  · exact (by decide :
      ∀ x ∈ ("\n\n---\n이 이슈는 자동으로 생성되었습니다. 수동 번역이 필요한 항목입니다.\n".data :
        List Char), x ≠ '|') c hc

/-- The dynamic update suffix defeats the backtick walk at its head. -/
theorem updateSuffix_btB (t : List Char) : btB (updateSuffix t) := by
  refine Or.inl ?_
  have hsh : updateSuffix t = '\n' :: '*' :: (("*마지막 업데이트**: ".data ++ t) ++
      "\n\n---\n이 이슈는 자동으로 생성되었습니다. 수동 번역이 필요한 항목입니다.\n".data) := rfl
  rw [hsh, skipWsThen_ws '`' '\n' _ (by decide) (by decide)]
  exact skipWsThen_stop '`' '*' _ (by decide) (by decide)

/-- C2.  Reconciliation against an existing open record is idempotent:
with the record body produced by the create path for the prior items, a
first `reconcileGroup` for a batch appends exactly the batch's
genuinely new items (or does nothing), and a second `reconcileGroup`
with the same batch against the resulting body appends nothing — its
filtered new-items set is empty — so the reconciled body documents each
item key at most once (its scanned key list has no duplicates).
Hypotheses: the interpolated fields are pipe-free, the items are
well-formed, prior and batch keys are duplicate-free, stripping the
created body removes exactly its dynamic tail, and the splice position
of the created body's table is its end. -/
theorem claim_C2_reconcile_idempotent (gdn m t0 t1 t2 : List Char) (tsl : Nat)
    (prior batch : List UnresolvedItem)
    (hg : ∀ c ∈ gdn, c ≠ '|') (hm : ∀ c ∈ m, c ≠ '|')
    (ht0 : ∀ c ∈ t0, c ≠ '|') (ht1 : ∀ c ∈ t1, c ≠ '|')
    (hw : ∀ it ∈ prior ++ batch, wfItem it)
    (hnp : (prior.map fun it => it.key).Nodup)
    (hnb : (batch.map fun it => it.key).Nodup)
    (hs : cutAtPat nlDashNl (removeTs (createBody gdn m t0 prior)) =
      headerText gdn m t0 ++ thsepText ++ rowsText prior)
    (htsl : firstPipeLine (splitLines (headerText gdn m t0 ++ thsepText ++ rowsText prior)) =
      some tsl)
    (hins : insertPos (headerText gdn m t0 ++ thsepText ++ rowsText prior)
        (tableEndLine (splitLines (headerText gdn m t0 ++ thsepText ++ rowsText prior)) tsl) =
      (headerText gdn m t0 ++ thsepText ++ rowsText prior).length) :
    reconcileGroup
        (some (resultBody (some (createBody gdn m t0 prior))
          (reconcileGroup (some (createBody gdn m t0 prior)) gdn m t1 batch)))
        gdn m t2 batch = RAction.noop ∧
      (scanKeys (resultBody (some (createBody gdn m t0 prior))
        (reconcileGroup (some (createBody gdn m t0 prior)) gdn m t1 batch))).Nodup := by
  have hwp : ∀ it ∈ prior, wfItem it := fun x hx => hw x (List.mem_append.mpr (Or.inl hx))
  have hwb : ∀ it ∈ batch, wfItem it := fun x hx => hw x (List.mem_append.mpr (Or.inr hx))
  have hscan0 : scanKeys (createBody gdn m t0 prior) = prior.map fun it => it.key := by
    rw [createBody, List.append_assoc, List.append_assoc]
    exact scanKeys_body gdn m t0 prior footerText hg hm ht0 hwp footerText_nopipe footerText_btB
  cases hN : batch.filter (fun it => !((prior.map fun it => it.key).contains it.key)) with
  | nil =>
    have hno : reconcileGroup (some (createBody gdn m t0 prior)) gdn m t1 batch =
        RAction.noop := by
      apply reconcileGroup_noop
      rw [hscan0, hN]
      rfl
    rw [hno]
    constructor
    · apply reconcileGroup_noop
      rw [resultBody_noop_some, hscan0, hN]
      rfl
    · rw [resultBody_noop_some, hscan0]
      exact hnp
  | cons n0 nrest =>
    have hne : (batch.filter fun it =>
        !((scanKeys (createBody gdn m t0 prior)).contains it.key)).isEmpty = false := by
      rw [hscan0, hN]
      rfl
    have hup : reconcileGroup (some (createBody gdn m t0 prior)) gdn m t1 batch =
        RAction.update ((headerText gdn m t0 ++ thsepText ++ rowsText prior) ++
          rowsText (n0 :: nrest) ++ updateSuffix t1) := by
      rw [reconcileGroup_update (createBody gdn m t0 prior) gdn m t1 batch tsl hne
          (by rw [hs]; exact htsl),
        hs, hins, List.take_length, List.drop_length, hscan0, hN, List.append_nil]
    rw [hup, resultBody_update]
    have hscan1 : scanKeys ((headerText gdn m t0 ++ thsepText ++ rowsText prior) ++
        rowsText (n0 :: nrest) ++ updateSuffix t1) =
        (prior ++ n0 :: nrest).map fun it => it.key := by
      have hshape : (headerText gdn m t0 ++ thsepText ++ rowsText prior) ++
          rowsText (n0 :: nrest) ++ updateSuffix t1 =
          headerText gdn m t0 ++ (thsepText ++
            (rowsText (prior ++ n0 :: nrest) ++ updateSuffix t1)) := by
        rw [rowsText_append]
        simp [List.append_assoc]
      rw [hshape]
      refine scanKeys_body gdn m t0 (prior ++ n0 :: nrest) (updateSuffix t1) hg hm ht0 ?_
        (updateSuffix_nopipe t1 ht1) (updateSuffix_btB t1)
      intro x hx
      rcases List.mem_append.mp hx with hx | hx
      · exact hwp x hx
      · exact hwb x (List.mem_of_mem_filter (hN ▸ hx))
    constructor
    · apply reconcileGroup_noop
      rw [hscan1]
      have hflt : batch.filter (fun it =>
          !(((prior ++ n0 :: nrest).map fun it => it.key).contains it.key)) = [] := by
        rw [List.filter_eq_nil_iff]
        intro a ha
        rw [List.map_append]
        intro hcon
        rw [Bool.not_eq_true', contains_eq_true] at hcon
        · exact absurd hcon (by decide)
        · rw [List.mem_append]
          by_cases hc : a.key ∈ prior.map fun it => it.key
          · exact Or.inl hc
          · right
            have haN : a ∈ n0 :: nrest := by
              rw [← hN, List.mem_filter]
              exact ⟨ha, by rw [Bool.not_eq_true', contains_eq_false _ _ hc]⟩
            exact List.mem_map.mpr ⟨a, haN, rfl⟩
      rw [hflt]
      rfl
    · rw [hscan1, List.map_append, List.nodup_append]
      have hsl : (n0 :: nrest).Sublist batch := hN ▸ List.filter_sublist batch
      refine ⟨hnp, hnb.sublist (hsl.map _), ?_⟩
      intro a hap haN
      obtain ⟨x, hxN, hxk⟩ := List.mem_map.mp haN
      have hxf : x ∈ batch.filter (fun it =>
          !((prior.map fun it => it.key).contains it.key)) := hN ▸ hxN
      have hpred := (List.mem_filter.mp hxf).2
      rw [← hxk] at hap
      rw [Bool.not_eq_true', contains_eq_true _ _ hap] at hpred
      exact absurd hpred (by decide)

set_option maxRecDepth 400000 in
set_option maxHeartbeats 4000000 in
/-- Witness for C2 (the spec's Scenario C): an existing record for
`mymod` documenting `EVENT.1`, reconciled with a batch containing
`EVENT.1` and `EVENT.2`; the second reconciliation is a no-op and the
reconciled body documents each key once. -/
theorem claim_C2_witness :
    reconcileGroup
        (some (resultBody
          (some (createBody "CK3".data "mymod".data "T0".data
            [UnresolvedItem.mk "mymod".data "f1.txt".data "EVENT.1".data "m1".data]))
          (reconcileGroup
            (some (createBody "CK3".data "mymod".data "T0".data
              [UnresolvedItem.mk "mymod".data "f1.txt".data "EVENT.1".data "m1".data]))
            "CK3".data "mymod".data "T1".data
            [UnresolvedItem.mk "mymod".data "f1.txt".data "EVENT.1".data "m1".data,
              UnresolvedItem.mk "mymod".data "f2.txt".data "EVENT.2".data "m2".data])))
        "CK3".data "mymod".data "T2".data
        [UnresolvedItem.mk "mymod".data "f1.txt".data "EVENT.1".data "m1".data,
          UnresolvedItem.mk "mymod".data "f2.txt".data "EVENT.2".data "m2".data] =
      RAction.noop ∧
    (scanKeys (resultBody
      (some (createBody "CK3".data "mymod".data "T0".data
        [UnresolvedItem.mk "mymod".data "f1.txt".data "EVENT.1".data "m1".data]))
      (reconcileGroup
        (some (createBody "CK3".data "mymod".data "T0".data
          [UnresolvedItem.mk "mymod".data "f1.txt".data "EVENT.1".data "m1".data]))
        "CK3".data "mymod".data "T1".data
        [UnresolvedItem.mk "mymod".data "f1.txt".data "EVENT.1".data "m1".data,
          UnresolvedItem.mk "mymod".data "f2.txt".data "EVENT.2".data "m2".data]))).Nodup :=
  claim_C2_reconcile_idempotent "CK3".data "mymod".data "T0".data "T1".data "T2".data 8
    [UnresolvedItem.mk "mymod".data "f1.txt".data "EVENT.1".data "m1".data]
    [UnresolvedItem.mk "mymod".data "f1.txt".data "EVENT.1".data "m1".data,
      UnresolvedItem.mk "mymod".data "f2.txt".data "EVENT.2".data "m2".data]
    (by decide) (by decide) (by decide) (by decide) (by decide) (by decide) (by decide)
    (by decide) (by decide) (by decide)

set_option maxRecDepth 40000 in
/-- C9, counterexample.  The claim says that for a record body with no
recognizable table the reconciler treats every batch item as new and
the update still includes all of them.  In the code (index.js
lines 115-118) the no-table case logs a warning and `continue`s: no
update happens and the discovered items are dropped.  For the
hand-edited body below, key extraction indeed returns the empty set,
but the reconciliation of a one-item batch is the warn-and-skip action,
not an update containing the item. -/
theorem claim_C9_counterexample :
    scanKeys "(hand-edited body)".data = [] ∧
    reconcileGroup (some "(hand-edited body)".data) "CK3".data "mymod".data "T1".data
      [UnresolvedItem.mk "mymod".data "f1.txt".data "EVENT.1".data "m1".data] =
      RAction.skipped :=
  ⟨by decide, by decide⟩

/-- C9, amended.  For every existing open record whose body yields no
keys to the extractor, the reconciler treats every batch item as new
(the filtered new-items list is the whole batch); then, when the
stripped body has no line whose trimmed form starts with a pipe, the
group is skipped with a warning — dropping the discovered items —
and only when such a line exists does the update include all of them. -/
theorem claim_C9_no_table_amended (body gdn m t : List Char) (batch : List UnresolvedItem)
    (hscan : scanKeys body = []) (hne : batch ≠ []) :
    batch.filter (fun it => !((scanKeys body).contains it.key)) = batch ∧
    (firstPipeLine (splitLines (cutAtPat nlDashNl (removeTs body))) = none →
      reconcileGroup (some body) gdn m t batch = RAction.skipped) ∧
    (∀ tsl, firstPipeLine (splitLines (cutAtPat nlDashNl (removeTs body))) = some tsl →
      ∃ pre suf, reconcileGroup (some body) gdn m t batch =
        RAction.update (pre ++ rowsText batch ++ suf)) := by
  have hfilt : batch.filter (fun it => !((scanKeys body).contains it.key)) = batch := by
    rw [hscan]
    refine List.filter_eq_self.mpr ?_
    intro a _
    rfl
  have hemp : (batch.filter fun it => !((scanKeys body).contains it.key)).isEmpty = false := by
    rw [hfilt]
    cases batch with
    | nil => exact absurd rfl hne
    | cons a l => rfl
  refine ⟨hfilt, fun h2 => reconcileGroup_skipped body gdn m t batch hemp h2, ?_⟩
  intro tsl h2
  refine ⟨(cutAtPat nlDashNl (removeTs body)).take
      (insertPos (cutAtPat nlDashNl (removeTs body))
        (tableEndLine (splitLines (cutAtPat nlDashNl (removeTs body))) tsl)),
    (cutAtPat nlDashNl (removeTs body)).drop
      (insertPos (cutAtPat nlDashNl (removeTs body))
        (tableEndLine (splitLines (cutAtPat nlDashNl (removeTs body))) tsl)) ++
      updateSuffix t, ?_⟩
  rw [reconcileGroup_update body gdn m t batch tsl hemp h2, hfilt]
  simp [List.append_assoc]

set_option maxRecDepth 40000 in
/-- Witness for C9's amended statement at a skeletal one-line table
body: every batch item is treated as new, and since line 0 is a pipe
line the update contains the whole batch's rows. -/
theorem claim_C9_witness :
    [UnresolvedItem.mk "mymod".data "f1.txt".data "EVENT.1".data "m1".data].filter
        (fun it => !((scanKeys "| x |\n".data).contains it.key)) =
      [UnresolvedItem.mk "mymod".data "f1.txt".data "EVENT.1".data "m1".data] ∧
    (firstPipeLine (splitLines (cutAtPat nlDashNl (removeTs "| x |\n".data))) = none →
      reconcileGroup (some "| x |\n".data) "CK3".data "mymod".data "T1".data
        [UnresolvedItem.mk "mymod".data "f1.txt".data "EVENT.1".data "m1".data] =
        RAction.skipped) ∧
    (∀ tsl, firstPipeLine (splitLines (cutAtPat nlDashNl (removeTs "| x |\n".data))) =
        some tsl →
      ∃ pre suf, reconcileGroup (some "| x |\n".data) "CK3".data "mymod".data "T1".data
          [UnresolvedItem.mk "mymod".data "f1.txt".data "EVENT.1".data "m1".data] =
        RAction.update (pre ++
          rowsText [UnresolvedItem.mk "mymod".data "f1.txt".data "EVENT.1".data "m1".data] ++
          suf)) :=
  claim_C9_no_table_amended "| x |\n".data "CK3".data "mymod".data "T1".data
    [UnresolvedItem.mk "mymod".data "f1.txt".data "EVENT.1".data "m1".data]
    (by decide) (by decide)

/-- C10.  Input validation at the reconciler's interface (index.js
lines 59-75): an element of `items` that is not an object with
string-typed `mod`, `file`, `key` and `message` fields is skipped (the
code logs a warning), excluded from grouping, and never contributes to
any group; its presence never fails the grouping and never affects how
the valid items are grouped — grouping the raw list equals grouping
only its validated items. -/
theorem claim_C10_validation_guard (raw : List RawItem) :
    itemsByMod raw = groupValid (raw.filterMap validItem) := by
  rw [itemsByMod, groupValid]
  suffices h : ∀ (l : List RawItem) (acc : List (List Char × List UnresolvedItem)),
      l.foldl
        (fun acc r =>
          match validItem r with
          | none => acc
          | some it => addToGroup acc it)
        acc =
        (l.filterMap validItem).foldl addToGroup acc by
    exact h raw []
  intro l
  induction l with
  | nil => intro _; rfl
  | cons r l' ih =>
    intro acc
    cases hv : validItem r <;> simp [hv, ih, List.filterMap_cons]
